import Mathlib

set_option autoImplicit false

/-!
Shallow embedding of the inkWall-backend ingestion pipeline: the provider
normalizers (`services/unsplash.js`, `services/pexels.js`), the catalog store
gateway (`services/database.js` over the Mongoose `Wallpaper` and `Category`
models), the ingestion orchestrator (`jobs/fetchWallpapers.js`) and the
pagination cursor arithmetic (`services/cronJobs.js`).  The MongoDB collection
is modelled as a list of documents; the schema's unique indexes (`_id`, and the
compound `(external_id, source)` index of `models/Wallpaper.js`) are modelled
by the upsert operations rejecting a write that would violate them, as the
real store does.
-/

namespace InkWall

/-- JavaScript `a || b` on an optional string operand: `undefined`/`null` and
the empty string are falsy. -/
def jsOrStr (a b : Option String) : Option String :=
  match a with
  | some s => if s == "" then b else some s
  | none => b

/-- JavaScript `a || d` where `d` is a string literal default. -/
def jsOrDefault (a : Option String) (d : String) : String :=
  match a with
  | some s => if s == "" then d else s
  | none => d

/-- JSON/JavaScript values, as far as the `tags` field of a wallpaper document
is concerned: the normalizers emit a JSON-encoded string and the insert path
of `services/database.js` parses it back. -/
inductive Jval where
  | jnull
  | jbool (b : Bool)
  | jnum (n : Int)
  | jstr (s : String)
  | jarr (elems : List Jval)
deriving Repr

/-- Characters `JSON.stringify` escapes with a single backslash in a string
literal.  (Control characters, which `JSON.stringify` escapes as `\uXXXX`,
are not modelled; the round-trip theorem for claim C10 excludes them by
hypothesis.) -/
def escapesToSelf (c : Char) : Bool := c == '"' || c == '\\'

/-- Encoding of one character inside a JSON string literal. -/
def escapeChar (c : Char) : List Char :=
  if escapesToSelf c then ['\\', c] else [c]

/-- Model of `JSON.stringify` on a single string. -/
def encodeJsonString (s : String) : String :=
  "\"" ++ String.mk (List.flatten (s.data.map escapeChar)) ++ "\""

/-- Comma-separated encoding of the elements of a JSON array of strings. -/
def jsonStringifyItems : List String → String
  | [] => ""
  | [t] => encodeJsonString t
  | t1 :: t2 :: ts => encodeJsonString t1 ++ "," ++ jsonStringifyItems (t2 :: ts)

/-- Model of `JSON.stringify` on an array of strings — the only shape the
provider normalizers ever serialize into the `tags` field. -/
def jsonStringifyStrings (ts : List String) : String :=
  "[" ++ jsonStringifyItems ts ++ "]"

/-- Decimal value of a digit string. -/
def digitsToNat (cs : List Char) : Nat :=
  cs.foldl (fun n c => n * 10 + (c.toNat - 48)) 0

/-- Parse the body of a JSON string literal, after its opening quote, handling
the backslash escapes `\"` and `\\` produced by `encodeJsonString`.  Returns
the decoded characters together with the remaining input. -/
def parseStringBody : List Char → Option (List Char × List Char)
  | [] => none
  | c :: rest =>
    if c == '"' then some ([], rest)
    else if c == '\\' then
      match rest with
      | [] => none
      | e :: rest2 =>
        if e == '"' || e == '\\' then
          match parseStringBody rest2 with
          | some (s, r) => some (e :: s, r)
          | none => none
        else none
    else
      match parseStringBody rest with
      | some (s, r) => some (c :: s, r)
      | none => none

/-- Parse the remainder of a JSON array of string literals after its first
element: a sequence of comma-separated string literals terminated by the
closing bracket.  `fuel` bounds the recursion depth; callers pass the length
of the input, which suffices because every element consumes at least one
character. -/
def parseArrayTail (fuel : Nat) (cs : List Char) : Option (List String × List Char) :=
  match fuel, cs with
  | _, ']' :: rest => some ([], rest)
  | Nat.succ f, ',' :: '"' :: rest =>
    match parseStringBody rest with
    | some (s, r) =>
      match parseArrayTail f r with
      | some (ts, r2) => some (String.mk s :: ts, r2)
      | none => none
    | none => none
  | _, _ => none

/-- Model of `JSON.parse` restricted to the grammar this codebase ever feeds
it: arrays of string literals (the normalizers' `tags` encoding, with no
insignificant whitespace), plus bare string, boolean, null and non-negative
integer literals.  Any other input is a parse failure, matching the
`JSON.parse` exception that `services/database.js` catches. -/
def parseJson (s : String) : Option Jval :=
  match s.data with
  | '[' :: ']' :: rest => if rest.isEmpty then some (Jval.jarr []) else none
  | '[' :: '"' :: rest =>
    match parseStringBody rest with
    | some (t, r) =>
      match parseArrayTail r.length r with
      | some (ts, r2) =>
        if r2.isEmpty then some (Jval.jarr ((String.mk t :: ts).map Jval.jstr)) else none
      | none => none
    | none => none
  | '"' :: rest =>
    match parseStringBody rest with
    | some (t, r) => if r.isEmpty then some (Jval.jstr (String.mk t)) else none
    | none => none
  | 't' :: 'r' :: 'u' :: 'e' :: rest => if rest.isEmpty then some (Jval.jbool true) else none
  | 'f' :: 'a' :: 'l' :: 's' :: 'e' :: rest => if rest.isEmpty then some (Jval.jbool false) else none
  | 'n' :: 'u' :: 'l' :: 'l' :: rest => if rest.isEmpty then some Jval.jnull else none
  | cs =>
    if !cs.isEmpty && cs.all Char.isDigit then some (Jval.jnum (Int.ofNat (digitsToNat cs)))
    else none

/-- A provider-native Unsplash photo, with exactly the fields
`services/unsplash.js` reads.  Optional fields model `undefined`/`null`
results of the optional-chaining accesses in the source. -/
structure UnsplashPhoto where
  pid : String
  description : Option String
  alt_description : Option String
  user_name : Option String
  user_links_html : Option String
  urls_thumb : Option String
  urls_small : Option String
  urls_regular : Option String
  urls_full : Option String
  urls_raw : Option String
  width : Option Int
  height : Option Int
  color : Option String
  blur_hash : Option String
  tag_titles : Option (List String)
deriving Repr

/-- A provider-native Pexels photo, with exactly the fields
`services/pexels.js` reads.  `pid` is numeric in the Pexels API; the
normalizer stringifies it. -/
structure PexelsPhoto where
  pid : Int
  alt : Option String
  photographer : Option String
  photographer_url : Option String
  src_tiny : Option String
  src_small : Option String
  src_large : Option String
  src_medium : Option String
  src_large2x : Option String
  src_original : Option String
  width : Option Int
  height : Option Int
  avg_color : Option String
deriving Repr

/-- A wallpaper document, `models/Wallpaper.js`.  `id` is the document key
(the JS insert path moves the normalizers' `id` field into Mongo's `_id`
unchanged, so the two are identified here).  `tags` carries the JavaScript
value stored in that field: the normalizers emit a JSON-encoded string, the
insert path replaces it by the parsed array.  `downloads` is the one
schema-defaulted counter the ingestion documents omit, so it is carried as an
optional field (`none` models an absent key, which a `$set` update leaves
untouched); timestamp fields are not modelled. -/
structure Wallpaper where
  id : String
  source : String
  external_id : String
  title : String
  photographer : String
  photographer_url : Option String
  url_thumb : Option String
  url_regular : Option String
  url_full : Option String
  url_raw : Option String
  width : Option Int
  height : Option Int
  color : Option String
  blur_hash : Option String
  category : Option String
  tags : Jval
  is_featured : Bool
  is_ai_generated : Bool
  downloads : Option Nat := none
deriving Repr

/-- The `normalizePhoto` function of `services/unsplash.js`.  The numeric
`0` literals the source assigns to `is_featured`/`is_ai_generated` are carried
as the `false` the Boolean schema fields cast them to. -/
def unsplashNormalizePhoto (photo : UnsplashPhoto) (category : Option String) : Wallpaper :=
  { id := "unsplash_" ++ photo.pid
    source := "unsplash"
    external_id := photo.pid
    title := jsOrDefault (jsOrStr photo.description photo.alt_description) "Untitled"
    photographer := jsOrDefault photo.user_name "Unknown"
    photographer_url := jsOrStr photo.user_links_html none
    url_thumb := jsOrStr photo.urls_thumb photo.urls_small
    url_regular := photo.urls_regular
    url_full := photo.urls_full
    url_raw := photo.urls_raw
    width := photo.width
    height := photo.height
    color := photo.color
    blur_hash := photo.blur_hash
    category := category
    tags := Jval.jstr (jsonStringifyStrings (photo.tag_titles.getD []))
    is_featured := false
    is_ai_generated := false }

/-- The `normalizePhoto` function of `services/pexels.js`. -/
def pexelsNormalizePhoto (photo : PexelsPhoto) (category : Option String) : Wallpaper :=
  { id := "pexels_" ++ toString photo.pid
    source := "pexels"
    external_id := toString photo.pid
    title := jsOrDefault photo.alt "Untitled"
    photographer := jsOrDefault photo.photographer "Unknown"
    photographer_url := jsOrStr photo.photographer_url none
    url_thumb := jsOrStr photo.src_tiny photo.src_small
    url_regular := jsOrStr photo.src_large photo.src_medium
    url_full := jsOrStr photo.src_large2x photo.src_original
    url_raw := photo.src_original
    width := photo.width
    height := photo.height
    color := photo.avg_color
    blur_hash := none
    category := category
    tags := Jval.jstr (jsonStringifyStrings [])
    is_featured := false
    is_ai_generated := false }

/-- The wallpaper collection, modelled as the list of its documents in
insertion order. -/
abbrev Store := List Wallpaper

/-- The `wallpaperExists` function of `services/database.js`:
`countDocuments on external_id and source` compared with zero. -/
def wallpaperExists (externalId source : String) (db : Store) : Bool :=
  db.any (fun w => w.external_id == externalId && w.source == source)

/-- The per-document preprocessing both insert paths of
`services/database.js` perform: move `id` into `_id` (a no-op here, see
`Wallpaper.id`) and, when `tags` is a string, replace it by its `JSON.parse`
result, or by the empty array when parsing throws. -/
def prepDoc (w : Wallpaper) : Wallpaper :=
  match w.tags with
  | Jval.jstr s =>
    match parseJson s with
    | some v => { w with tags := v }
    | none => { w with tags := Jval.jarr [] }
  | _ => w

/-- Schema defaults applied to a freshly inserted document: the omitted
`downloads` counter starts at 0 (`models/Wallpaper.js`). -/
def applyInsertDefaults (w : Wallpaper) : Wallpaper :=
  { w with downloads := some (w.downloads.getD 0) }

/-- MongoDB `$set` of document `w` onto the stored document `r`: every key
present on `w` overwrites the stored one; the only key the ingestion
documents may omit is `downloads`, which is then preserved. -/
def applySet (r w : Wallpaper) : Wallpaper :=
  { w with downloads := match w.downloads with | some d => some d | none => r.downloads }

/-- Replace the first stored document whose key is `id` — the semantics of a
MongoDB `updateOne` (keys are unique in a real collection, so at most one
matches). -/
def setById (id : String) (w : Wallpaper) : Store → Store
  | [] => []
  | r :: rs => if r.id == id then applySet r w :: rs else r :: setById id w rs

/-- One `updateOne ... upsert: true` operation against the collection,
filtered on `_id` as in `insertWallpapers` of `services/database.js`.
Returns `none` when the write violates the unique compound
`(external_id, source)` index of `models/Wallpaper.js` (a duplicate-key
error): on the insert branch, when the new document's pair is already
present; on the update branch, when the pair collides with a different
document. -/
def upsertOne (db : Store) (w : Wallpaper) : Option Store :=
  match db.find? (fun r => r.id == w.id) with
  | some _ =>
    if db.any (fun r => r.id != w.id && r.external_id == w.external_id && r.source == w.source)
    then none
    else some (setById w.id w db)
  | none =>
    if db.any (fun r => r.external_id == w.external_id && r.source == w.source)
    then none
    else some (db ++ [applyInsertDefaults w])

/-- An ordered `bulkWrite` of upsert operations: operations run in order and
the first duplicate-key error aborts the remaining ones, leaving the earlier
writes applied.  The Boolean records whether the bulk write threw. -/
def bulkUpsert : Store → List Wallpaper → Store × Bool
  | db, [] => (db, false)
  | db, w :: ws =>
    match upsertOne db w with
    | some db2 => bulkUpsert db2 ws
    | none => (db, true)

/-- The `insertWallpapers` function of `services/database.js`: preprocess
every document, then run the ordered bulk upsert. -/
def insertWallpapers (ws : List Wallpaper) (db : Store) : Store × Bool :=
  bulkUpsert db (ws.map prepDoc)

/-- The `insertWallpaper` function of `services/database.js`
(`findOneAndUpdate` on `_id` with `upsert: true`); `none` models the
duplicate-key exception. -/
def insertWallpaper (w : Wallpaper) (db : Store) : Option Store :=
  upsertOne db (prepDoc w)

/-- A category document, `models/Category.js`, restricted to the fields the
ingestion pipeline reads.  `cid` is Mongo's `_id`. -/
structure Category where
  cid : String
  slug : String
  name : String
  search_query : String
  wallpaper_count : Nat := 0
deriving DecidableEq, Repr

/-- The category collection, kept in name-ascending order so that
`getCategories` (a `find().sort` on `name` in `services/database.js`) is the
identity on it. -/
abbrev CatStore := List Category

/-- Number of wallpaper documents whose `category` equals `slug`
(`Wallpaper.countDocuments` in `updateCategoryCounts`). -/
def countByCategory (db : Store) (slug : String) : Nat :=
  (db.filter (fun w => w.category == some slug)).length

/-- MongoDB `updateOne` on the category collection: set `wallpaper_count` of
the first document whose `_id` is `cid`. -/
def setCatCount (cid : String) (n : Nat) : CatStore → CatStore
  | [] => []
  | c :: cs =>
    if c.cid == cid then { c with wallpaper_count := n } :: cs
    else c :: setCatCount cid n cs

/-- The `updateCategoryCounts` function of `services/database.js`: iterate
over a snapshot of the categories, recomputing and persisting each
`wallpaper_count` from the wallpaper collection. -/
def updateCategoryCounts (db : Store) (cats : CatStore) : CatStore :=
  cats.foldl (fun acc c => setCatCount c.cid (countByCategory db c.slug) acc) cats

/-- The upstream providers, as the possibly-failing search capability the
orchestrator consumes: `none` models a thrown request error.  Arguments are
query, page, perPage, mirroring the adapters' signatures (the category slug
only labels the result and is applied by the normalizing wrappers below). -/
structure Upstream where
  unsplashSearch : String → Nat → Nat → Option (List UnsplashPhoto)
  pexelsSearch : String → Nat → Nat → Option (List PexelsPhoto)

/-- The `searchPhotos` function of `services/unsplash.js`: on success, map
the raw photos through the normalizer; on a request error, rethrow. -/
def unsplashSearchPhotos (env : Upstream) (query category : String) (page perPage : Nat) :
    Option (List Wallpaper) :=
  (env.unsplashSearch query page perPage).map
    (fun photos => photos.map (fun p => unsplashNormalizePhoto p (some category)))

/-- The `searchPhotos` function of `services/pexels.js`. -/
def pexelsSearchPhotos (env : Upstream) (query category : String) (page perPage : Nat) :
    Option (List Wallpaper) :=
  (env.pexelsSearch query page perPage).map
    (fun photos => photos.map (fun p => pexelsNormalizePhoto p (some category)))

/-- The duplicate filter of `fetchCategoryWallpapers` in
`jobs/fetchWallpapers.js`: keep the fetched records whose
`(external_id, source)` pair is not yet in the catalog.  The source performs
the existence checks in a loop before any write, so a `filter` against the
unchanged store is exact. -/
def filterNew (db : Store) (ws : List Wallpaper) : List Wallpaper :=
  ws.filter (fun w => !(wallpaperExists w.external_id w.source db))

/-- The save step of `fetchCategoryWallpapers`: filter out existing records,
insert the rest (guarded on a non-empty batch as in the source), and return
the number of new records — or `none` when the awaited insert threw, which
the caller's per-category `try`/`catch` absorbs. -/
def saveNewWallpapers (ws : List Wallpaper) (db : Store) : Store × Option Nat :=
  let newWs := filterNew db ws
  if newWs.length > 0 then
    let res := insertWallpapers newWs db
    if res.2 then (res.1, none) else (res.1, some newWs.length)
  else (db, some 0)

/-- The `fetchCategoryWallpapers` function of `jobs/fetchWallpapers.js`: try
Unsplash (primary) at page 1; on failure fall back to Pexels (secondary) at
page 1 with the same query; if both fail, return 0 new records; otherwise
filter duplicates and insert.  `none` in the second component models an
exception escaping the function (only the insert can throw here). -/
def fetchCategoryWallpapers (env : Upstream) (cat : Category) (perPage : Nat) (db : Store) :
    Store × Option Nat :=
  match unsplashSearchPhotos env cat.search_query cat.slug 1 perPage with
  | some ws => saveNewWallpapers ws db
  | none =>
    match pexelsSearchPhotos env cat.search_query cat.slug 1 perPage with
    | some ws => saveNewWallpapers ws db
    | none => (db, some 0)

/-- The `getCategories` function of `services/database.js`; the name-sort is
modelled by keeping the collection name-sorted (`CatStore`). -/
def getCategories (cats : CatStore) : List Category := cats

/-- The per-category loop of `fetchAllCategoryWallpapers` in
`jobs/fetchWallpapers.js`: process categories in order, each call wrapped in
a `try`/`catch` that logs and swallows a failure, so a category whose
processing threw (second component `none`) contributes nothing to the
running total. -/
def fetchLoop (env : Upstream) (db : Store) (total : Nat) : List Category → Store × Nat
  | [] => (db, total)
  | c :: cs =>
    let res := fetchCategoryWallpapers env c 20 db
    fetchLoop env res.1 (total + res.2.getD 0) cs

/-- The `fetchAllCategoryWallpapers` function of `jobs/fetchWallpapers.js`:
fetch every category returned by `getCategories`, then reconcile the
category counts.  Returns the wallpaper store, the category store and the
total of newly added records. -/
def fetchAllCategoryWallpapers (env : Upstream) (db : Store) (cats : CatStore) :
    Store × CatStore × Nat :=
  let fin := fetchLoop env db 0 (getCategories cats)
  (fin.1, updateCategoryCounts fin.1 cats, fin.2)

/-- The Pexels page advance of `runFetchJob` in `services/cronJobs.js`:
`currentPage.pexels = (currentPage.pexels % 10) + 1`. -/
def advancePexels (page : Nat) : Nat := page % 10 + 1

/-- The Unsplash page advance of `runFetchJob` in `services/cronJobs.js`:
`currentPage.unsplash = (currentPage.unsplash % 5) + 1`. -/
def advanceUnsplash (page : Nat) : Nat := page % 5 + 1

/-- The `source` enumeration declared by the wallpaper schema,
`models/Wallpaper.js`. -/
def validSource (s : String) : Bool :=
  s == "unsplash" || s == "pexels" || s == "gemini"

/-- Well-formedness that every record written by the ingestion pipeline
enjoys and that real catalogs maintain: the document key is the derived
`source_externalId` string and the source is one of the schema enumeration. -/
def wfRecord (w : Wallpaper) : Bool :=
  w.id == w.source ++ "_" ++ w.external_id && validSource w.source

/-- JavaScript falsiness of an optional string: absent (`undefined`/`null`)
or empty. -/
def jsFalsy (a : Option String) : Prop := a = none ∨ a = some ""

/-- Replace the first document whose `(external_id, source)` pair matches
`w` — the update half of the pair-keyed upsert prescribed by the spec. -/
def replaceByPair (w : Wallpaper) : Store → Store
  | [] => []
  | r :: rs =>
    if r.external_id == w.external_id && r.source == w.source then applySet r w :: rs
    else r :: replaceByPair w rs

/-- Modelled from the spec: "the Catalog Store Gateway's upsert operation
must be a true upsert keyed on this pair, not the derived `id`" — a
comparison definition stating the pair-keyed upsert the spec's words
prescribe, to be held against the implementation's `insertWallpapers`. -/
def specUpsertByPairOne (db : Store) (w : Wallpaper) : Store :=
  if wallpaperExists w.external_id w.source db then replaceByPair w db
  else db ++ [applyInsertDefaults w]

/-- Modelled from the spec: batch form of the pair-keyed upsert, with the
same per-document preprocessing as the implementation. -/
def specUpsertManyByPair (ws : List Wallpaper) (db : Store) : Store :=
  (ws.map prepDoc).foldl specUpsertByPairOne db

/-- Concrete stored record used by the key-discipline counterexamples: the
catalog already holds upstream photo 42 from Unsplash under its derived
key. -/
def c1Old : Wallpaper :=
  { id := "unsplash_42", source := "unsplash", external_id := "42",
    title := "Old", photographer := "Ann", photographer_url := none,
    url_thumb := some "t", url_regular := some "r", url_full := some "f",
    url_raw := none, width := none, height := none, color := none,
    blur_hash := none, category := some "nature", tags := Jval.jarr [],
    is_featured := false, is_ai_generated := false, downloads := some 3 }

/-- Concrete incoming document with the same `(external_id, source)` pair as
`c1Old` but a different derived id — the "replayed id derivation with a bug"
scenario the spec's invariant sentence describes. -/
def c1Doc : Wallpaper :=
  { c1Old with id := "wp_42", title := "New", downloads := none }

/-- The list of records one call of `fetchCategoryWallpapers` works from:
the primary provider's normalized result, or on primary failure the
secondary's, or `none` when both fail. -/
def effectiveFetch (env : Upstream) (cat : Category) (perPage : Nat) : Option (List Wallpaper) :=
  match unsplashSearchPhotos env cat.search_query cat.slug 1 perPage with
  | some ws => some ws
  | none => pexelsSearchPhotos env cat.search_query cat.slug 1 perPage

/-- Every record of the store is well-formed (`wfRecord`) — the invariant
all ingestion writes maintain. -/
def wfStore (db : Store) : Prop := ∀ r ∈ db, wfRecord r = true

/-- No two documents of the store share a key — MongoDB's `_id` primary-key
invariant. -/
def idUniqueStore (db : Store) : Prop := (db.map Wallpaper.id).Nodup

/-- No two documents of the store share an `(external_id, source)` pair —
the invariant the unique compound index enforces. -/
def pairUniqueStore (db : Store) : Prop :=
  List.Pairwise (fun a b => ¬(a.external_id = b.external_id ∧ a.source = b.source)) db

/-- The reconciled form of one category document: its counter recomputed
from the wallpaper store. -/
def updCount (db : Store) (c : Category) : Category :=
  { c with wallpaper_count := countByCategory db c.slug }

/-- Concrete Unsplash photo used by witnesses: upstream photo 42 fetched
again with a fresh title and no download information. -/
def p42New : UnsplashPhoto :=
  { pid := "42", description := some "New Title", alt_description := none,
    user_name := some "Ann", user_links_html := none,
    urls_thumb := some "t2", urls_small := none, urls_regular := some "r2",
    urls_full := some "f2", urls_raw := none, width := some 10, height := some 20,
    color := some "#fff", blur_hash := none, tag_titles := some ["x"] }

/-- Concrete upstream environment: Unsplash answers the query
`"nature landscape"` with photo 42 and fails every other request; Pexels is
down. -/
def envNature : Upstream :=
  { unsplashSearch := fun q _ _ => if q == "nature landscape" then some [p42New] else none,
    pexelsSearch := fun _ _ _ => none }

/-- Concrete category document for the `nature` category. -/
def catNature : Category :=
  { cid := "cat1", slug := "nature", name := "Nature", search_query := "nature landscape" }

/-- Concrete Unsplash photo with every display field missing, exercising the
normalizer fallbacks. -/
def uPhotoBare : UnsplashPhoto :=
  { pid := "b1", description := none, alt_description := none,
    user_name := none, user_links_html := none,
    urls_thumb := none, urls_small := some "s", urls_regular := some "r",
    urls_full := some "f", urls_raw := none, width := none, height := none,
    color := none, blur_hash := none, tag_titles := none }

/-- Concrete Pexels photo with every display field missing. -/
def pPhotoBare : PexelsPhoto :=
  { pid := 7, alt := none, photographer := none, photographer_url := none,
    src_tiny := none, src_small := some "s", src_large := some "l",
    src_medium := none, src_large2x := none, src_original := some "o",
    width := none, height := none, avg_color := none }

/-- Concrete environment in which the primary provider is entirely down and
the secondary answers the query `"qc"` with one photo. -/
def envSecondaryOnly : Upstream :=
  { unsplashSearch := fun _ _ _ => none,
    pexelsSearch := fun q _ _ => if q == "qc" then some [pPhotoBare] else none }

/-- Concrete environment for the partial-failure scenario: the first
category's query succeeds on the primary provider, the second category's
query fails on both providers, the third succeeds only on the secondary. -/
def envPartial : Upstream :=
  { unsplashSearch := fun q _ _ => if q == "qa" then some [uPhotoBare] else none,
    pexelsSearch := fun q _ _ => if q == "qc" then some [pPhotoBare] else none }

/-- First category of the partial-failure scenario. -/
def catA : Category := { cid := "a", slug := "sa", name := "A", search_query := "qa" }

/-- Second category of the partial-failure scenario: both providers fail. -/
def catB : Category := { cid := "b", slug := "sb", name := "B", search_query := "qb" }

/-- Third category of the partial-failure scenario. -/
def catC : Category := { cid := "c", slug := "sc", name := "C", search_query := "qc" }

/-- Concrete wallpaper document whose `tags` field holds a string that is
not valid JSON. -/
def badTagsDoc : Wallpaper :=
  { c1Old with
    id := "unsplash_77", external_id := "77",
    tags := Jval.jstr "not json", downloads := none }

/-- A character that JSON string encoding passes through verbatim: not a
quote, not a backslash, not a control character. -/
def plainChar (c : Char) : Bool :=
  !(c == '"') && !(c == '\\') && decide (31 < c.toNat)

/-- A JSON value that is an array of strings. -/
def isStringArray (v : Jval) : Prop := ∃ ts : List String, v = Jval.jarr (ts.map Jval.jstr)

/-- The character-level remainder of an encoded JSON string array after its
first element's closing quote: each further element preceded by a comma,
then the closing bracket. -/
def encTail : List String → List Char
  | [] => [']']
  | t :: ts => ',' :: '"' :: ((t.data.map escapeChar).flatten ++ ('"' :: encTail ts))

/-! Helper lemmas: the derived document key `source ++ "_" ++ external_id`
determines the `(source, external_id)` pair for sources of the schema
enumeration, because the three enumerated sources begin with distinct
characters. -/

theorem append_underscore_cancel (s e1 e2 : String)
    (h : s ++ "_" ++ e1 = s ++ "_" ++ e2) : e1 = e2 := by
  have h2 := congrArg String.data h
  simp only [String.data_append, List.append_assoc] at h2
  exact String.ext (List.append_cancel_left (List.append_cancel_left h2))

theorem validSource_cases (s : String) (h : validSource s = true) :
    s = "unsplash" ∨ s = "pexels" ∨ s = "gemini" := by
  simp only [validSource, Bool.or_eq_true, beq_iff_eq] at h
  tauto

theorem src_append_inj (s1 s2 : String) (h1 : validSource s1 = true)
    (h2 : validSource s2 = true) (e1 e2 : String)
    (h : s1 ++ "_" ++ e1 = s2 ++ "_" ++ e2) : s1 = s2 := by
  rcases validSource_cases s1 h1 with rfl | rfl | rfl <;>
    rcases validSource_cases s2 h2 with rfl | rfl | rfl <;>
    first
    | rfl
    | (exfalso
       have hd := congrArg String.data h
       simp only [String.data_append, List.append_assoc,
         show ("unsplash" : String).data = ['u','n','s','p','l','a','s','h'] from rfl,
         show ("pexels" : String).data = ['p','e','x','e','l','s'] from rfl,
         show ("gemini" : String).data = ['g','e','m','i','n','i'] from rfl,
         List.cons_append] at hd
       exact absurd (List.head_eq_of_cons_eq hd) (by decide))

theorem wfRecord_spec (w : Wallpaper) (h : wfRecord w = true) :
    w.id = w.source ++ "_" ++ w.external_id ∧ validSource w.source = true := by
  simp only [wfRecord, Bool.and_eq_true, beq_iff_eq] at h
  exact h

theorem wf_id_inj (a b : Wallpaper) (ha : wfRecord a = true) (hb : wfRecord b = true)
    (h : a.id = b.id) : a.source = b.source ∧ a.external_id = b.external_id := by
  obtain ⟨hia, hsa⟩ := wfRecord_spec a ha
  obtain ⟨hib, hsb⟩ := wfRecord_spec b hb
  rw [hia, hib] at h
  have hs := src_append_inj a.source b.source hsa hsb _ _ h
  refine ⟨hs, ?_⟩
  rw [hs] at h
  exact append_underscore_cancel _ _ _ h

/-- C4: the cursor advance computes `(currentPage mod windowSize) + 1` with
window 10 for Pexels and 5 for Unsplash; from page 1, `windowSize`
applications return to page 1, and every produced page lies in
`1..windowSize` — never 0, never beyond the window. -/
theorem cursor_advance_window :
    (∀ p, advancePexels p = p % 10 + 1) ∧ (∀ p, advanceUnsplash p = p % 5 + 1) ∧
    advancePexels^[10] 1 = 1 ∧ advanceUnsplash^[5] 1 = 1 ∧
    (∀ p, 1 ≤ advancePexels p ∧ advancePexels p ≤ 10) ∧
    (∀ p, 1 ≤ advanceUnsplash p ∧ advanceUnsplash p ≤ 5) := by
  refine ⟨fun p => rfl, fun p => rfl, by decide, by decide, fun p => ?_, fun p => ?_⟩ <;>
    simp only [advancePexels, advanceUnsplash] <;> omega

/-- C8 counterexample: the schema's `source` enumeration
(`models/Wallpaper.js`) admits `"gemini"`, which is outside the claimed set
`{unsplash, pexels, generated}`, and does not admit `"generated"`. -/
theorem source_enum_counterexample :
    validSource "gemini" = true ∧ validSource "generated" = false ∧
    ¬("gemini" = "unsplash" ∨ "gemini" = "pexels" ∨ "gemini" = "generated") := by
  decide

/-- C9: both normalizers derive the document id as
`source ++ "_" ++ external_id`, fall back for the title from the primary
caption field through the alternate description field (where the provider
has one) to the literal `"Untitled"`, and fall back for the photographer
name to the literal `"Unknown"`. -/
theorem normalizePhoto_fallbacks :
    (∀ (p : UnsplashPhoto) (cat : Option String),
      (unsplashNormalizePhoto p cat).id =
        (unsplashNormalizePhoto p cat).source ++ "_" ++ (unsplashNormalizePhoto p cat).external_id ∧
      (∀ t, p.description = some t → t ≠ "" → (unsplashNormalizePhoto p cat).title = t) ∧
      (∀ d, jsFalsy p.description → p.alt_description = some d → d ≠ "" →
        (unsplashNormalizePhoto p cat).title = d) ∧
      (jsFalsy p.description → jsFalsy p.alt_description →
        (unsplashNormalizePhoto p cat).title = "Untitled") ∧
      (∀ m, p.user_name = some m → m ≠ "" → (unsplashNormalizePhoto p cat).photographer = m) ∧
      (jsFalsy p.user_name → (unsplashNormalizePhoto p cat).photographer = "Unknown")) ∧
    (∀ (p : PexelsPhoto) (cat : Option String),
      (pexelsNormalizePhoto p cat).id =
        (pexelsNormalizePhoto p cat).source ++ "_" ++ (pexelsNormalizePhoto p cat).external_id ∧
      (∀ t, p.alt = some t → t ≠ "" → (pexelsNormalizePhoto p cat).title = t) ∧
      (jsFalsy p.alt → (pexelsNormalizePhoto p cat).title = "Untitled") ∧
      (∀ m, p.photographer = some m → m ≠ "" → (pexelsNormalizePhoto p cat).photographer = m) ∧
      (jsFalsy p.photographer → (pexelsNormalizePhoto p cat).photographer = "Unknown")) := by
  constructor
  · intro p cat
    refine ⟨rfl, ?_, ?_, ?_, ?_, ?_⟩
    · intro t ht hne
      simp [unsplashNormalizePhoto, jsOrStr, jsOrDefault, ht, hne]
    · intro d hd ha hne
      rcases hd with hd | hd <;>
        simp [unsplashNormalizePhoto, jsOrStr, jsOrDefault, hd, ha, hne]
    · intro hd ha
      rcases hd with hd | hd <;> rcases ha with ha | ha <;>
        simp [unsplashNormalizePhoto, jsOrStr, jsOrDefault, hd, ha]
    · intro m hm hne
      simp [unsplashNormalizePhoto, jsOrDefault, hm, hne]
    · intro hm
      rcases hm with hm | hm <;> simp [unsplashNormalizePhoto, jsOrDefault, hm]
  · intro p cat
    refine ⟨rfl, ?_, ?_, ?_, ?_⟩
    · intro t ht hne
      simp [pexelsNormalizePhoto, jsOrDefault, ht, hne]
    · intro ht
      rcases ht with ht | ht <;> simp [pexelsNormalizePhoto, jsOrDefault, ht]
    · intro m hm hne
      simp [pexelsNormalizePhoto, jsOrDefault, hm, hne]
    · intro hm
      rcases hm with hm | hm <;> simp [pexelsNormalizePhoto, jsOrDefault, hm]

/-- Witness for `normalizePhoto_fallbacks` at a concrete photo with every
display field missing. -/
theorem normalizePhoto_fallbacks_witness :
    (unsplashNormalizePhoto uPhotoBare none).title = "Untitled" ∧
    (unsplashNormalizePhoto uPhotoBare none).photographer = "Unknown" ∧
    (pexelsNormalizePhoto pPhotoBare none).title = "Untitled" ∧
    (pexelsNormalizePhoto pPhotoBare none).photographer = "Unknown" :=
  ⟨(normalizePhoto_fallbacks.1 uPhotoBare none).2.2.2.1 (Or.inl rfl) (Or.inl rfl),
   (normalizePhoto_fallbacks.1 uPhotoBare none).2.2.2.2.2 (Or.inl rfl),
   (normalizePhoto_fallbacks.2 pPhotoBare none).2.2.1 (Or.inl rfl),
   (normalizePhoto_fallbacks.2 pPhotoBare none).2.2.2.2 (Or.inl rfl)⟩

/-! Field-preservation lemmas for the document transformations of the
insert path: none of them touches the key fields. -/

theorem prepDoc_fields (w : Wallpaper) :
    (prepDoc w).id = w.id ∧ (prepDoc w).source = w.source ∧
    (prepDoc w).external_id = w.external_id ∧ (prepDoc w).downloads = w.downloads ∧
    (prepDoc w).title = w.title := by
  unfold prepDoc
  rcases w.tags with _ | _ | _ | s | _ <;> simp
  rcases parseJson s with _ | v <;> simp

theorem applySet_fields (r w : Wallpaper) :
    (applySet r w).id = w.id ∧ (applySet r w).source = w.source ∧
    (applySet r w).external_id = w.external_id := ⟨rfl, rfl, rfl⟩

theorem applyInsertDefaults_fields (w : Wallpaper) :
    (applyInsertDefaults w).id = w.id ∧ (applyInsertDefaults w).source = w.source ∧
    (applyInsertDefaults w).external_id = w.external_id := ⟨rfl, rfl, rfl⟩

theorem wfRecord_prepDoc (w : Wallpaper) : wfRecord (prepDoc w) = wfRecord w := by
  obtain ⟨h1, h2, h3, _, _⟩ := prepDoc_fields w
  simp [wfRecord, validSource, h1, h2, h3]

theorem wfRecord_applySet (r w : Wallpaper) : wfRecord (applySet r w) = wfRecord w := by
  simp [wfRecord, validSource, applySet]

theorem wfRecord_applyInsertDefaults (w : Wallpaper) :
    wfRecord (applyInsertDefaults w) = wfRecord w := by
  simp [wfRecord, validSource, applyInsertDefaults]

/-! Membership characterizations of the store operations. -/

theorem mem_setById (i : String) (w r2 : Wallpaper) :
    ∀ db : Store, r2 ∈ setById i w db → r2 ∈ db ∨ ∃ r, r2 = applySet r w := by
  intro db
  induction db with
  | nil => intro h; simp [setById] at h
  | cons r rs ih =>
    intro h
    simp only [setById] at h
    by_cases hc : (r.id == i) = true
    · rw [if_pos hc] at h
      rcases List.mem_cons.mp h with h1 | h1
      · exact Or.inr ⟨r, h1⟩
      · exact Or.inl (List.mem_cons_of_mem _ h1)
    · rw [if_neg hc] at h
      rcases List.mem_cons.mp h with h1 | h1
      · exact Or.inl (h1 ▸ List.mem_cons_self _ _)
      · rcases ih h1 with h2 | h2
        · exact Or.inl (List.mem_cons_of_mem _ h2)
        · exact Or.inr h2

theorem mem_upsertOne (db : Store) (w : Wallpaper) (db2 : Store)
    (h : upsertOne db w = some db2) (r2 : Wallpaper) (hm : r2 ∈ db2) :
    r2 ∈ db ∨ r2 = applyInsertDefaults w ∨ ∃ r, r2 = applySet r w := by
  rcases hf : db.find? (fun r => r.id == w.id) with _ | r0
  · simp only [upsertOne, hf] at h
    split at h
    · exact absurd h (by simp)
    · obtain rfl : db ++ [applyInsertDefaults w] = db2 := by injection h
      rcases List.mem_append.mp hm with h1 | h1
      · exact Or.inl h1
      · exact Or.inr (Or.inl (List.mem_singleton.mp h1))
  · simp only [upsertOne, hf] at h
    split at h
    · exact absurd h (by simp)
    · obtain rfl : setById w.id w db = db2 := by injection h
      rcases mem_setById w.id w r2 db hm with h1 | h1
      · exact Or.inl h1
      · exact Or.inr (Or.inr h1)

theorem mem_bulkUpsert (r2 : Wallpaper) :
    ∀ (ws : List Wallpaper) (db : Store), r2 ∈ (bulkUpsert db ws).1 →
      r2 ∈ db ∨ ∃ w ∈ ws, r2 = applyInsertDefaults w ∨ ∃ r, r2 = applySet r w := by
  intro ws
  induction ws with
  | nil => intro db h; exact Or.inl h
  | cons w ws ih =>
    intro db h
    simp only [bulkUpsert] at h
    rcases hop : upsertOne db w with _ | db2 <;> rw [hop] at h
    · exact Or.inl h
    · rcases ih db2 h with h1 | ⟨w1, hw1, h1⟩
      · rcases mem_upsertOne db w db2 hop r2 h1 with h2 | h2
        · exact Or.inl h2
        · exact Or.inr ⟨w, List.mem_cons_self _ _, h2⟩
      · exact Or.inr ⟨w1, List.mem_cons_of_mem _ hw1, h1⟩

/-- C8 (amended): the `source` enumeration declared by the schema is exactly
`{unsplash, pexels, gemini}`, and an ingestion write over well-formed
documents never changes the `source` of a stored record: any record of the
resulting store that carries the key of a preexisting record carries its
source. -/
theorem source_enum_and_immutability :
    (∀ s, validSource s = true ↔ (s = "unsplash" ∨ s = "pexels" ∨ s = "gemini")) ∧
    (∀ (db : Store) (ws : List Wallpaper), wfStore db → (∀ w ∈ ws, wfRecord w = true) →
      ∀ r ∈ db, ∀ r2 ∈ (insertWallpapers ws db).1, r2.id = r.id → r2.source = r.source) := by
  constructor
  · intro s
    constructor
    · exact validSource_cases s
    · intro h
      rcases h with rfl | rfl | rfl <;> decide
  · intro db ws hdb hws r hr r2 hr2 hid
    have hwfr : wfRecord r = true := hdb r hr
    rcases mem_bulkUpsert r2 (ws.map prepDoc) db hr2 with h1 | ⟨w1, hw1, h1⟩
    · exact (wf_id_inj r2 r (hdb r2 h1) hwfr hid).1
    · rcases List.mem_map.mp hw1 with ⟨w0, hw0, rfl⟩
      have hwfw : wfRecord (prepDoc w0) = true := by
        rw [wfRecord_prepDoc]; exact hws w0 hw0
      have hwfr2 : wfRecord r2 = true := by
        rcases h1 with rfl | ⟨r1, rfl⟩
        · rw [wfRecord_applyInsertDefaults]; exact hwfw
        · rw [wfRecord_applySet]; exact hwfw
      exact (wf_id_inj r2 r hwfr2 hwfr hid).1

/-- Witness for `source_enum_and_immutability`: the enumeration membership
of `"unsplash"` and source preservation across a concrete empty-batch
insert. -/
theorem source_enum_and_immutability_witness :
    ("unsplash" = "unsplash" ∨ "unsplash" = "pexels" ∨ "unsplash" = "gemini") ∧
    c1Old.source = c1Old.source :=
  ⟨(source_enum_and_immutability.1 "unsplash").mp (by decide),
   source_enum_and_immutability.2 [c1Old] []
     (by intro r hr; rw [List.mem_singleton] at hr; subst hr; decide)
     (by intro w hw; simp at hw)
     c1Old (List.mem_singleton_self c1Old)
     c1Old (List.mem_singleton_self c1Old) rfl⟩

/-- C1 counterexample: against a catalog holding upstream photo
`(external_id 42, source unsplash)` under its derived key, upserting a
document with the same pair but a different derived key shows the
implementation is keyed on `_id`, not on the pair — the pair-keyed upsert
the spec prescribes would refresh the stored record, while `insertWallpapers`
raises a duplicate-key error and stores nothing. -/
theorem upsert_keying_counterexample :
    c1Doc.external_id = c1Old.external_id ∧ c1Doc.source = c1Old.source ∧
    c1Doc.id ≠ c1Old.id ∧
    insertWallpapers [c1Doc] [c1Old] = ([c1Old], true) ∧
    specUpsertManyByPair [c1Doc] [c1Old] = [applySet c1Old (prepDoc c1Doc)] ∧
    (specUpsertManyByPair [c1Doc] [c1Old]).map Wallpaper.title = ["New"] ∧
    ((insertWallpapers [c1Doc] [c1Old]).1).map Wallpaper.title = ["Old"] := by
  refine ⟨rfl, rfl, ?_, rfl, rfl, rfl, rfl⟩
  decide

theorem setById_map_id (w : Wallpaper) :
    ∀ db : Store, (setById w.id w db).map Wallpaper.id = db.map Wallpaper.id := by
  intro db
  induction db with
  | nil => rfl
  | cons r rs ih =>
    simp only [setById]
    by_cases hc : (r.id == w.id) = true
    · rw [if_pos hc]
      simp only [List.map_cons]
      rw [show (applySet r w).id = r.id from (applySet_fields r w).1.trans (beq_iff_eq.mp hc).symm]
    · rw [if_neg hc]
      simp only [List.map_cons, ih]

theorem setById_pairUnique (w : Wallpaper) :
    ∀ db : Store, idUniqueStore db → pairUniqueStore db →
      (∀ r ∈ db, r.id ≠ w.id → ¬(r.external_id = w.external_id ∧ r.source = w.source)) →
      pairUniqueStore (setById w.id w db) := by
  intro db
  induction db with
  | nil => intro _ _ _; exact List.Pairwise.nil
  | cons r rs ih =>
    intro hid hp hcond
    obtain ⟨hpr, hprs⟩ := List.pairwise_cons.mp hp
    simp only [setById]
    by_cases hc : (r.id == w.id) = true
    · rw [if_pos hc]
      refine List.pairwise_cons.mpr ⟨?_, hprs⟩
      intro b hb hpair
      have hbw : b.external_id = w.external_id ∧ b.source = w.source :=
        ⟨hpair.1.symm, hpair.2.symm⟩
      have hbid : b.id ≠ w.id := by
        intro he
        have : r.id ∈ rs.map Wallpaper.id := by
          rw [beq_iff_eq.mp hc, ← he]
          exact List.mem_map_of_mem Wallpaper.id hb
        exact (List.nodup_cons.mp hid).1 this
      exact hcond b (List.mem_cons_of_mem r hb) hbid hbw
    · rw [if_neg hc]
      refine List.pairwise_cons.mpr ⟨?_, ?_⟩
      · intro b hb
        rcases mem_setById w.id w b rs hb with h1 | ⟨r1, rfl⟩
        · exact hpr b h1
        · intro hpair
          exact hcond r (List.mem_cons_self r rs) (fun he => hc (beq_iff_eq.mpr he))
            ⟨hpair.1, hpair.2⟩
      · exact ih (List.nodup_cons.mp hid).2 hprs
          (fun r1 hr1 => hcond r1 (List.mem_cons_of_mem r hr1))

theorem upsertOne_unique (db : Store) (w : Wallpaper) (db2 : Store)
    (hid : idUniqueStore db) (hp : pairUniqueStore db)
    (h : upsertOne db w = some db2) : idUniqueStore db2 ∧ pairUniqueStore db2 := by
  rcases hf : db.find? (fun r => r.id == w.id) with _ | r0
  · simp only [upsertOne, hf] at h
    split at h
    · exact absurd h (by simp)
    · obtain rfl : db ++ [applyInsertDefaults w] = db2 := by injection h
      rename_i hany
      rw [Bool.not_eq_true, List.any_eq_false] at hany
      have hnotin : ∀ r ∈ db, r.id ≠ w.id := by
        intro r hr
        have := List.find?_eq_none.mp hf r hr
        simpa using this
      constructor
      · unfold idUniqueStore
        rw [List.map_append]
        refine List.Nodup.append hid (by simp) ?_
        intro x hx hx2
        rcases List.mem_map.mp hx with ⟨r, hr, rfl⟩
        simp only [List.map_cons, List.map_nil, List.mem_singleton] at hx2
        exact hnotin r hr (hx2.trans (applyInsertDefaults_fields w).1)
      · unfold pairUniqueStore
        refine (List.pairwise_append).mpr ⟨hp, by simp, ?_⟩
        intro a ha b hb
        rw [List.mem_singleton] at hb
        subst hb
        intro hpair
        have hx := hany a ha
        rw [(applyInsertDefaults_fields w).2.2] at hpair
        have hps : (applyInsertDefaults w).source = w.source := rfl
        rw [hps] at hpair
        simp [hpair.1, hpair.2] at hx
  · simp only [upsertOne, hf] at h
    split at h
    · exact absurd h (by simp)
    · obtain rfl : setById w.id w db = db2 := by injection h
      rename_i hany
      rw [Bool.not_eq_true, List.any_eq_false] at hany
      have hcond : ∀ r ∈ db, r.id ≠ w.id →
          ¬(r.external_id = w.external_id ∧ r.source = w.source) := by
        intro r hr hne hpair
        have := hany r hr
        simp [hne, hpair.1, hpair.2] at this
      refine ⟨?_, setById_pairUnique w db hid hp hcond⟩
      unfold idUniqueStore
      rw [setById_map_id]
      exact hid

theorem bulkUpsert_unique :
    ∀ (ws : List Wallpaper) (db : Store), idUniqueStore db → pairUniqueStore db →
      idUniqueStore (bulkUpsert db ws).1 ∧ pairUniqueStore (bulkUpsert db ws).1 := by
  intro ws
  induction ws with
  | nil => exact fun db h1 h2 => ⟨h1, h2⟩
  | cons w ws ih =>
    intro db h1 h2
    simp only [bulkUpsert]
    rcases hop : upsertOne db w with _ | db2 <;> simp only [hop]
    · exact ⟨h1, h2⟩
    · obtain ⟨h1a, h2a⟩ := upsertOne_unique db w db2 h1 h2 hop
      exact ih db2 h1a h2a

/-- C1 (amended): the implementation's upsert is keyed on the derived `_id`,
not on the `(source, external_id)` pair; the schema's unique compound index
nonetheless enforces the pair invariant — starting from a catalog with
unique keys and unique pairs, any `insertWallpapers` batch leaves the keys
and the pairs unique, a conflicting write failing rather than creating a
duplicate. -/
theorem upsert_pair_uniqueness (ws : List Wallpaper) (db : Store)
    (h1 : idUniqueStore db) (h2 : pairUniqueStore db) :
    idUniqueStore (insertWallpapers ws db).1 ∧ pairUniqueStore (insertWallpapers ws db).1 :=
  bulkUpsert_unique (ws.map prepDoc) db h1 h2

/-- Witness for `upsert_pair_uniqueness`: the duplicate-pair document of the
counterexample does not break pair uniqueness of a concrete catalog. -/
theorem upsert_pair_uniqueness_witness :
    idUniqueStore (insertWallpapers [c1Doc] [c1Old]).1 ∧
    pairUniqueStore (insertWallpapers [c1Doc] [c1Old]).1 :=
  upsert_pair_uniqueness [c1Doc] [c1Old]
    (by unfold idUniqueStore; decide)
    (by unfold pairUniqueStore; simp)

theorem wallpaperExists_iff (e s : String) (db : Store) :
    wallpaperExists e s db = true ↔ ∃ r ∈ db, r.external_id = e ∧ r.source = s := by
  simp [wallpaperExists, List.any_eq_true, Bool.and_eq_true, beq_iff_eq]

theorem wf_pair_id (a b : Wallpaper) (ha : wfRecord a = true) (hb : wfRecord b = true)
    (he : a.external_id = b.external_id) (hs : a.source = b.source) : a.id = b.id := by
  obtain ⟨hia, _⟩ := wfRecord_spec a ha
  obtain ⟨hib, _⟩ := wfRecord_spec b hb
  rw [hia, hib, he, hs]

theorem mem_setById_of_ne (i : String) (w r : Wallpaper) (hne : r.id ≠ i) :
    ∀ db : Store, r ∈ db → r ∈ setById i w db := by
  intro db
  induction db with
  | nil => intro h; exact absurd h (List.not_mem_nil r)
  | cons r1 rs ih =>
    intro h
    simp only [setById]
    by_cases hc : (r1.id == i) = true
    · rw [if_pos hc]
      rcases List.mem_cons.mp h with rfl | h1
      · exact absurd (beq_iff_eq.mp hc) hne
      · exact List.mem_cons_of_mem _ h1
    · rw [if_neg hc]
      rcases List.mem_cons.mp h with rfl | h1
      · exact List.mem_cons_self _ _
      · exact List.mem_cons_of_mem _ (ih h1)

theorem setById_pair_present (w : Wallpaper) :
    ∀ db : Store, (∃ r0 ∈ db, (r0.id == w.id) = true) →
      ∃ r1, applySet r1 w ∈ setById w.id w db := by
  intro db
  induction db with
  | nil => rintro ⟨r0, h, _⟩; exact absurd h (List.not_mem_nil r0)
  | cons r rs ih =>
    rintro ⟨r0, hr0, hbeq⟩
    simp only [setById]
    by_cases hc : (r.id == w.id) = true
    · rw [if_pos hc]
      exact ⟨r, List.mem_cons_self _ _⟩
    · rw [if_neg hc]
      rcases List.mem_cons.mp hr0 with rfl | h1
      · exact absurd hbeq hc
      · obtain ⟨r1, hm⟩ := ih ⟨r0, h1, hbeq⟩
        exact ⟨r1, List.mem_cons_of_mem _ hm⟩

theorem setById_append_no_match (i : String) (w : Wallpaper) :
    ∀ (db0 add : Store), (∀ r ∈ db0, (r.id == i) = false) →
      setById i w (db0 ++ add) = db0 ++ setById i w add := by
  intro db0 add
  induction db0 with
  | nil => intro _; rfl
  | cons r rs ih =>
    intro h
    simp only [List.cons_append, setById, List.append_eq]
    rw [if_neg (by simp [h r (List.mem_cons_self r rs)]), ih
      (fun r1 hr1 => h r1 (List.mem_cons_of_mem r hr1))]

/-- When the store and the document are well-formed, one upsert operation
never hits a duplicate-key error: it preserves well-formedness, preserves
every `(external_id, source)` pair already present, and leaves the
document's own pair present. -/
theorem upsertOne_wf (db : Store) (w : Wallpaper) (hdb : wfStore db)
    (hw : wfRecord w = true) :
    ∃ db2, upsertOne db w = some db2 ∧ wfStore db2 ∧
      (∀ e s, wallpaperExists e s db = true → wallpaperExists e s db2 = true) ∧
      wallpaperExists w.external_id w.source db2 = true := by
  have hany : (db.any fun r =>
      r.id != w.id && r.external_id == w.external_id && r.source == w.source) = false := by
    rw [← Bool.not_eq_true, List.any_eq_true]
    rintro ⟨r, hr, hcond⟩
    simp only [Bool.and_eq_true, bne_iff_ne, beq_iff_eq] at hcond
    exact hcond.1.1 (wf_pair_id r w (hdb r hr) hw hcond.1.2 hcond.2)
  rcases hf : db.find? (fun r => r.id == w.id) with _ | r0
  · have hnoid : ∀ r ∈ db, (r.id == w.id) = false := by
      intro r hr
      have := List.find?_eq_none.mp hf r hr
      simpa using this
    have hnopair : (db.any fun r =>
        r.external_id == w.external_id && r.source == w.source) = false := by
      rw [← Bool.not_eq_true, List.any_eq_true]
      rintro ⟨r, hr, hcond⟩
      simp only [Bool.and_eq_true, beq_iff_eq] at hcond
      have := wf_pair_id r w (hdb r hr) hw hcond.1 hcond.2
      have h2 := hnoid r hr
      rw [this] at h2
      simp at h2
    refine ⟨db ++ [applyInsertDefaults w], ?_, ?_, ?_, ?_⟩
    · simp only [upsertOne, hf, hnopair]
      rfl
    · intro r hr
      rcases List.mem_append.mp hr with h1 | h1
      · exact hdb r h1
      · rw [List.mem_singleton.mp h1, wfRecord_applyInsertDefaults]
        exact hw
    · intro e s he
      rw [wallpaperExists_iff] at he ⊢
      obtain ⟨r, hr, hre⟩ := he
      exact ⟨r, List.mem_append_left _ hr, hre⟩
    · rw [wallpaperExists_iff]
      exact ⟨applyInsertDefaults w, List.mem_append_right _ (List.mem_singleton_self _),
        (applyInsertDefaults_fields w).2.2, rfl⟩
  · refine ⟨setById w.id w db, ?_, ?_, ?_, ?_⟩
    · simp only [upsertOne, hf, hany]
      rfl
    · intro r hr
      rcases mem_setById w.id w r db hr with h1 | ⟨r1, rfl⟩
      · exact hdb r h1
      · rw [wfRecord_applySet]
        exact hw
    · intro e s he
      rw [wallpaperExists_iff] at he ⊢
      obtain ⟨r, hr, hre, hrs⟩ := he
      by_cases hcase : r.id = w.id
      · have hrw : wfRecord r = true := hdb r hr
        obtain ⟨hsrc, hext⟩ := wf_id_inj r w hrw hw hcase
        obtain ⟨r1, hm⟩ := setById_pair_present w db
          ⟨r, hr, beq_iff_eq.mpr hcase⟩
        refine ⟨applySet r1 w, hm, ?_, ?_⟩
        · rw [(applySet_fields r1 w).2.2, ← hext, hre]
        · rw [(applySet_fields r1 w).2.1, ← hsrc, hrs]
      · exact ⟨r, mem_setById_of_ne w.id w r hcase db hr, hre, hrs⟩
    · have hr0 : r0 ∈ db := List.mem_of_find?_eq_some hf
      have hbeq : (r0.id == w.id) = true := by
        have h0 := List.find?_some hf
        simpa using h0
      obtain ⟨r1, hm⟩ := setById_pair_present w db ⟨r0, hr0, hbeq⟩
      rw [wallpaperExists_iff]
      exact ⟨applySet r1 w, hm, (applySet_fields r1 w).2.2, (applySet_fields r1 w).2.1⟩

/-- Over a well-formed store and batch, the ordered bulk upsert never throws,
keeps the store well-formed, preserves every present pair, and ends with
every batch pair present. -/
theorem bulkUpsert_wf :
    ∀ (ws : List Wallpaper) (db : Store), wfStore db → (∀ w ∈ ws, wfRecord w = true) →
      (bulkUpsert db ws).2 = false ∧ wfStore (bulkUpsert db ws).1 ∧
      (∀ e s, wallpaperExists e s db = true → wallpaperExists e s (bulkUpsert db ws).1 = true) ∧
      (∀ w ∈ ws, wallpaperExists w.external_id w.source (bulkUpsert db ws).1 = true) := by
  intro ws
  induction ws with
  | nil =>
    intro db hdb _
    exact ⟨rfl, hdb, fun e s he => he, by simp⟩
  | cons w ws ih =>
    intro db hdb hws
    have hw : wfRecord w = true := hws w (List.mem_cons_self _ _)
    obtain ⟨db2, hop, hdb2, hpres, hwpair⟩ := upsertOne_wf db w hdb hw
    obtain ⟨iherr, ihwf, ihpres, ihpairs⟩ :=
      ih db2 hdb2 (fun w1 hw1 => hws w1 (List.mem_cons_of_mem _ hw1))
    simp only [bulkUpsert, hop]
    refine ⟨iherr, ihwf, ?_, ?_⟩
    · intro e s he
      exact ihpres e s (hpres e s he)
    · intro w1 hw1
      rcases List.mem_cons.mp hw1 with rfl | h1
      · exact ihpres _ _ hwpair
      · exact ihpairs w1 h1

/-- Over a well-formed store and batch whose pairs are all new relative to a
head segment `db0`, the bulk upsert leaves `db0` untouched at the head of
the store: it only appends new documents or rewrites documents outside
`db0`, and every record beyond `db0` is well-formed and carries the source
of some batch document unless it was already beyond `db0`. -/
theorem bulkUpsert_extends :
    ∀ (ws : List Wallpaper) (db0 add : Store), wfStore db0 → wfStore add →
      (∀ w ∈ ws, wfRecord w = true) →
      (∀ w ∈ ws, wallpaperExists w.external_id w.source db0 = false) →
      ∃ add2 : Store, (bulkUpsert (db0 ++ add) ws).1 = db0 ++ add2 ∧ wfStore add2 ∧
        (∀ a ∈ add2, a ∈ add ∨ ∃ w ∈ ws, a.source = w.source) := by
  intro ws
  induction ws with
  | nil =>
    intro db0 add _ hadd _ _
    exact ⟨add, rfl, hadd, fun a ha => Or.inl ha⟩
  | cons w ws ih =>
    intro db0 add hdb0 hadd hws hnew
    have hw : wfRecord w = true := hws w (List.mem_cons_self _ _)
    have hdb : wfStore (db0 ++ add) := by
      intro r hr
      rcases List.mem_append.mp hr with h1 | h1
      · exact hdb0 r h1
      · exact hadd r h1
    have hnm : ∀ r ∈ db0, (r.id == w.id) = false := by
      intro r hr
      rw [Bool.eq_false_iff]
      intro hbeq
      have hpair := wf_id_inj r w (hdb0 r hr) hw (beq_iff_eq.mp hbeq)
      have : wallpaperExists w.external_id w.source db0 = true :=
        (wallpaperExists_iff _ _ _).mpr ⟨r, hr, hpair.2, hpair.1⟩
      rw [hnew w (List.mem_cons_self _ _)] at this
      exact Bool.false_ne_true this
    obtain ⟨db2, hop, hdb2, _, _⟩ := upsertOne_wf (db0 ++ add) w hdb hw
    -- characterize db2 as db0 ++ add1
    have hshape : ∃ add1, db2 = db0 ++ add1 ∧ wfStore add1 ∧
        (∀ a ∈ add1, a ∈ add ∨ a.source = w.source) := by
      rcases hf : (db0 ++ add).find? (fun r => r.id == w.id) with _ | r0
      · -- insert branch
        have hnopair : ((db0 ++ add).any fun r =>
            r.external_id == w.external_id && r.source == w.source) = false := by
          rw [← Bool.not_eq_true, List.any_eq_true]
          rintro ⟨r, hr, hcond⟩
          simp only [Bool.and_eq_true, beq_iff_eq] at hcond
          have hid := wf_pair_id r w (hdb r hr) hw hcond.1 hcond.2
          have h2 := List.find?_eq_none.mp hf r hr
          simp [hid] at h2
        rw [upsertOne, hf, hnopair] at hop
        simp only [Bool.false_eq_true, if_false, Option.some.injEq] at hop
        refine ⟨add ++ [applyInsertDefaults w], by rw [← hop, List.append_assoc], ?_, ?_⟩
        · intro a ha
          rcases List.mem_append.mp ha with h1 | h1
          · exact hadd a h1
          · rw [List.mem_singleton.mp h1, wfRecord_applyInsertDefaults]
            exact hw
        · intro a ha
          rcases List.mem_append.mp ha with h1 | h1
          · exact Or.inl h1
          · rw [List.mem_singleton.mp h1]
            exact Or.inr rfl
      · -- update branch
        have hany : ((db0 ++ add).any fun r =>
            r.id != w.id && r.external_id == w.external_id && r.source == w.source) = false := by
          rw [← Bool.not_eq_true, List.any_eq_true]
          rintro ⟨r, hr, hcond⟩
          simp only [Bool.and_eq_true, bne_iff_ne, beq_iff_eq] at hcond
          exact hcond.1.1 (wf_pair_id r w (hdb r hr) hw hcond.1.2 hcond.2)
        rw [upsertOne, hf, hany] at hop
        simp only [Bool.false_eq_true, if_false, Option.some.injEq] at hop
        refine ⟨setById w.id w add, by rw [← hop, setById_append_no_match w.id w db0 add hnm], ?_, ?_⟩
        · intro a ha
          rcases mem_setById w.id w a add ha with h1 | ⟨r1, rfl⟩
          · exact hadd a h1
          · rw [wfRecord_applySet]
            exact hw
        · intro a ha
          rcases mem_setById w.id w a add ha with h1 | ⟨r1, rfl⟩
          · exact Or.inl h1
          · exact Or.inr rfl
    obtain ⟨add1, rfl, hadd1, horigin⟩ := hshape
    obtain ⟨add2, hsh2, hadd2, horigin2⟩ := ih db0 add1 hdb0 hadd1
      (fun w1 hw1 => hws w1 (List.mem_cons_of_mem _ hw1))
      (fun w1 hw1 => hnew w1 (List.mem_cons_of_mem _ hw1))
    refine ⟨add2, ?_, hadd2, ?_⟩
    · simp only [bulkUpsert, hop]
      exact hsh2
    · intro a ha
      rcases horigin2 a ha with h1 | ⟨w1, hw1, h1⟩
      · rcases horigin a h1 with h2 | h2
        · exact Or.inl h2
        · exact Or.inr ⟨w, List.mem_cons_self _ _, h2⟩
      · exact Or.inr ⟨w1, List.mem_cons_of_mem _ hw1, h1⟩

theorem wfRecord_unsplashNormalize (p : UnsplashPhoto) (cat : Option String) :
    wfRecord (unsplashNormalizePhoto p cat) = true := by
  simp only [wfRecord, unsplashNormalizePhoto, validSource, Bool.and_eq_true, beq_iff_eq]
  constructor
  · rw [show ("unsplash" : String) ++ "_" = "unsplash_" from rfl]
  · simp

theorem wfRecord_pexelsNormalize (p : PexelsPhoto) (cat : Option String) :
    wfRecord (pexelsNormalizePhoto p cat) = true := by
  simp only [wfRecord, pexelsNormalizePhoto, validSource, Bool.and_eq_true, beq_iff_eq]
  constructor
  · rw [show ("pexels" : String) ++ "_" = "pexels_" from rfl]
  · simp

theorem effectiveFetch_wf (env : Upstream) (cat : Category) (perPage : Nat)
    (ws : List Wallpaper) (h : effectiveFetch env cat perPage = some ws) :
    ∀ w ∈ ws, wfRecord w = true := by
  unfold effectiveFetch at h
  rcases hu : unsplashSearchPhotos env cat.search_query cat.slug 1 perPage with _ | ws1
  · rw [hu] at h
    unfold pexelsSearchPhotos at h
    rcases hp : env.pexelsSearch cat.search_query 1 perPage with _ | ps
    · rw [hp] at h; exact absurd h (by simp)
    · rw [hp] at h
      obtain rfl : ps.map (fun p => pexelsNormalizePhoto p (some cat.slug)) = ws := by
        injection h
      intro w hw
      rcases List.mem_map.mp hw with ⟨p, _, rfl⟩
      exact wfRecord_pexelsNormalize p _
  · rw [hu] at h
    obtain rfl : ws1 = ws := by injection h
    unfold unsplashSearchPhotos at hu
    rcases hp : env.unsplashSearch cat.search_query 1 perPage with _ | ps
    · rw [hp] at hu; exact absurd hu (by simp)
    · rw [hp] at hu
      obtain rfl : ps.map (fun p => unsplashNormalizePhoto p (some cat.slug)) = ws1 := by
        injection hu
      intro w hw
      rcases List.mem_map.mp hw with ⟨p, _, rfl⟩
      exact wfRecord_unsplashNormalize p _

theorem filterNew_pairs_false (db : Store) (ws : List Wallpaper) :
    ∀ w ∈ filterNew db ws, wallpaperExists w.external_id w.source db = false := by
  intro w hw
  have := (List.mem_filter.mp hw).2
  simpa using this

theorem filterNew_sub (db : Store) (ws : List Wallpaper) :
    ∀ w ∈ filterNew db ws, w ∈ ws :=
  fun _ hw => (List.mem_filter.mp hw).1

/-- Over a well-formed store and a well-formed fetched list, the save step
never throws: it reports the number of filtered-in records, keeps the store
well-formed, preserves present pairs, and makes every fetched record's pair
present. -/
theorem saveNew_wf (ws : List Wallpaper) (db : Store) (hdb : wfStore db)
    (hws : ∀ w ∈ ws, wfRecord w = true) :
    (saveNewWallpapers ws db).2 = some (filterNew db ws).length ∧
    wfStore (saveNewWallpapers ws db).1 ∧
    (∀ e s, wallpaperExists e s db = true →
      wallpaperExists e s (saveNewWallpapers ws db).1 = true) ∧
    (∀ w ∈ ws, wallpaperExists w.external_id w.source (saveNewWallpapers ws db).1 = true) := by
  have hbatch : ∀ x ∈ (filterNew db ws).map prepDoc, wfRecord x = true := by
    intro x hx
    rcases List.mem_map.mp hx with ⟨w, hw, rfl⟩
    rw [wfRecord_prepDoc]
    exact hws w (filterNew_sub db ws w hw)
  by_cases hn : (filterNew db ws).length > 0
  · obtain ⟨herr, hwf, hpres, hpairs⟩ :=
      bulkUpsert_wf ((filterNew db ws).map prepDoc) db hdb hbatch
    have hres : saveNewWallpapers ws db =
        ((bulkUpsert db ((filterNew db ws).map prepDoc)).1, some (filterNew db ws).length) := by
      simp only [saveNewWallpapers, insertWallpapers, if_pos hn, herr]
      simp
    rw [hres]
    refine ⟨rfl, hwf, hpres, ?_⟩
    intro w hw
    by_cases hex : wallpaperExists w.external_id w.source db = true
    · exact hpres _ _ hex
    · have hwf2 : w ∈ filterNew db ws := by
        rw [filterNew, List.mem_filter]
        exact ⟨hw, by simp [Bool.eq_false_iff.mpr hex]⟩
      have := hpairs (prepDoc w) (List.mem_map_of_mem prepDoc hwf2)
      rwa [(prepDoc_fields w).2.2.1, (prepDoc_fields w).2.1] at this
  · have hnil : filterNew db ws = [] := List.eq_nil_of_length_eq_zero (by omega)
    have hres : saveNewWallpapers ws db = (db, some 0) := by
      simp only [saveNewWallpapers, hnil]
      simp
    rw [hres, hnil]
    refine ⟨rfl, hdb, fun e s he => he, ?_⟩
    intro w hw
    by_cases hex : wallpaperExists w.external_id w.source db = true
    · exact hex
    · exfalso
      have : w ∈ filterNew db ws := by
        rw [filterNew, List.mem_filter]
        exact ⟨hw, by simp [Bool.eq_false_iff.mpr hex]⟩
      rw [hnil] at this
      exact List.not_mem_nil w this

/-- When every fetched record's pair is already present, the save step is a
no-op reporting zero new records. -/
theorem saveNew_noop (ws : List Wallpaper) (db : Store)
    (hall : ∀ w ∈ ws, wallpaperExists w.external_id w.source db = true) :
    saveNewWallpapers ws db = (db, some 0) := by
  have hnil : filterNew db ws = [] := by
    rw [filterNew, List.filter_eq_nil_iff]
    intro w hw
    simp [hall w hw]
  simp only [saveNewWallpapers, hnil]
  simp

theorem fetchCategory_bothFail (env : Upstream) (cat : Category) (perPage : Nat) (db : Store)
    (h1 : env.unsplashSearch cat.search_query 1 perPage = none)
    (h2 : env.pexelsSearch cat.search_query 1 perPage = none) :
    fetchCategoryWallpapers env cat perPage db = (db, some 0) := by
  simp [fetchCategoryWallpapers, unsplashSearchPhotos, pexelsSearchPhotos, h1, h2]

/-- One category fetch over a well-formed store keeps it well-formed,
preserves every present pair, and ends with every effectively fetched pair
present. -/
theorem fetchCategory_wf (env : Upstream) (cat : Category) (perPage : Nat) (db : Store)
    (hdb : wfStore db) :
    wfStore (fetchCategoryWallpapers env cat perPage db).1 ∧
    (∀ e s, wallpaperExists e s db = true →
      wallpaperExists e s (fetchCategoryWallpapers env cat perPage db).1 = true) ∧
    (∀ ws, effectiveFetch env cat perPage = some ws →
      ∀ w ∈ ws, wallpaperExists w.external_id w.source
        (fetchCategoryWallpapers env cat perPage db).1 = true) := by
  rcases hu : unsplashSearchPhotos env cat.search_query cat.slug 1 perPage with _ | ws1
  · rcases hp : pexelsSearchPhotos env cat.search_query cat.slug 1 perPage with _ | ws2
    · have hres : fetchCategoryWallpapers env cat perPage db = (db, some 0) := by
        simp [fetchCategoryWallpapers, hu, hp]
      rw [hres]
      refine ⟨hdb, fun e s he => he, ?_⟩
      intro ws hws
      rw [effectiveFetch, hu, hp] at hws
      exact absurd hws (by simp)
    · have hwf2 : ∀ w ∈ ws2, wfRecord w = true :=
        effectiveFetch_wf env cat perPage ws2 (by rw [effectiveFetch, hu, hp])
      have hres : fetchCategoryWallpapers env cat perPage db = saveNewWallpapers ws2 db := by
        simp [fetchCategoryWallpapers, hu, hp]
      obtain ⟨_, hwf, hpres, hpairs⟩ := saveNew_wf ws2 db hdb hwf2
      rw [hres]
      refine ⟨hwf, hpres, ?_⟩
      intro ws hws
      rw [effectiveFetch, hu, hp] at hws
      obtain rfl : ws2 = ws := by injection hws
      exact hpairs
  · have hwf1 : ∀ w ∈ ws1, wfRecord w = true :=
      effectiveFetch_wf env cat perPage ws1 (by rw [effectiveFetch, hu])
    have hres : fetchCategoryWallpapers env cat perPage db = saveNewWallpapers ws1 db := by
      simp [fetchCategoryWallpapers, hu]
    obtain ⟨_, hwf, hpres, hpairs⟩ := saveNew_wf ws1 db hdb hwf1
    rw [hres]
    refine ⟨hwf, hpres, ?_⟩
    intro ws hws
    rw [effectiveFetch, hu] at hws
    obtain rfl : ws1 = ws := by injection hws
    exact hpairs

/-- When every effectively fetched record's pair is already present, one
category fetch is a no-op reporting zero new records. -/
theorem fetchCategory_noop (env : Upstream) (cat : Category) (perPage : Nat) (db : Store)
    (h : ∀ ws, effectiveFetch env cat perPage = some ws →
      ∀ w ∈ ws, wallpaperExists w.external_id w.source db = true) :
    fetchCategoryWallpapers env cat perPage db = (db, some 0) := by
  rcases hu : unsplashSearchPhotos env cat.search_query cat.slug 1 perPage with _ | ws1
  · rcases hp : pexelsSearchPhotos env cat.search_query cat.slug 1 perPage with _ | ws2
    · simp [fetchCategoryWallpapers, hu, hp]
    · have hall := h ws2 (by rw [effectiveFetch, hu, hp])
      have hres : fetchCategoryWallpapers env cat perPage db = saveNewWallpapers ws2 db := by
        simp [fetchCategoryWallpapers, hu, hp]
      rw [hres, saveNew_noop ws2 db hall]
  · have hall := h ws1 (by rw [effectiveFetch, hu])
    have hres : fetchCategoryWallpapers env cat perPage db = saveNewWallpapers ws1 db := by
      simp [fetchCategoryWallpapers, hu]
    rw [hres, saveNew_noop ws1 db hall]

/-- C2 counterexample: the catalog holds the record for
`(external_id 42, source unsplash)` with title `"Old"`; a cycle fetch
returns the same pair with title `"New Title"`, yet the category fetch
leaves the store exactly as it was — the stored title and URLs are not
refreshed, because the record is filtered out before the write. -/
theorem ingestion_refresh_counterexample :
    (unsplashSearchPhotos envNature "nature landscape" "nature" 1 20).map
      (fun l => l.map Wallpaper.title) = some ["New Title"] ∧
    fetchCategoryWallpapers envNature catNature 20 [c1Old] = ([c1Old], some 0) ∧
    c1Old.title = "Old" ∧ ("Old" : String) ≠ "New Title" := by
  refine ⟨rfl, rfl, rfl, ?_⟩
  decide

/-- Over a well-formed store, the save step only appends: the preexisting
documents stay untouched at the head of the store, and every appended
document carries the source of some record of the fetched list. -/
theorem saveNew_extends (ws : List Wallpaper) (db : Store) (hdb : wfStore db)
    (hws : ∀ w ∈ ws, wfRecord w = true) :
    ∃ add, (saveNewWallpapers ws db).1 = db ++ add ∧
      ∀ a ∈ add, ∃ w ∈ ws, a.source = w.source := by
  by_cases hn : (filterNew db ws).length > 0
  · obtain ⟨add2, hsh, _, horigin⟩ := bulkUpsert_extends ((filterNew db ws).map prepDoc) db []
      hdb (fun a ha => absurd ha (List.not_mem_nil a))
      (by
        intro x hx
        rcases List.mem_map.mp hx with ⟨w, hw, rfl⟩
        rw [wfRecord_prepDoc]
        exact hws w (filterNew_sub db ws w hw))
      (by
        intro x hx
        rcases List.mem_map.mp hx with ⟨w, hw, rfl⟩
        rw [(prepDoc_fields w).2.2.1, (prepDoc_fields w).2.1]
        exact filterNew_pairs_false db ws w hw)
    rw [List.append_nil] at hsh
    refine ⟨add2, ?_, ?_⟩
    · simp only [saveNewWallpapers, insertWallpapers, if_pos hn]
      rcases hb : (bulkUpsert db ((filterNew db ws).map prepDoc)).2 <;> simp [hb, ← hsh]
    · intro a ha
      rcases horigin a ha with h1 | ⟨w1, hw1, h1⟩
      · exact absurd h1 (List.not_mem_nil a)
      · rcases List.mem_map.mp hw1 with ⟨w0, hw0, rfl⟩
        rw [(prepDoc_fields w0).2.1] at h1
        exact ⟨w0, filterNew_sub db ws w0 hw0, h1⟩
  · refine ⟨[], ?_, by simp⟩
    have hnil : filterNew db ws = [] := List.eq_nil_of_length_eq_zero (by omega)
    simp [saveNewWallpapers, hnil]

/-- One category fetch over a well-formed store only appends documents, and
everything appended carries the source of some effectively fetched
record. -/
theorem fetchCategory_extends (env : Upstream) (cat : Category) (perPage : Nat)
    (db : Store) (hdb : wfStore db) :
    ∃ add, (fetchCategoryWallpapers env cat perPage db).1 = db ++ add ∧
      ∀ a ∈ add, ∃ ws, effectiveFetch env cat perPage = some ws ∧
        ∃ w ∈ ws, a.source = w.source := by
  rcases hu : unsplashSearchPhotos env cat.search_query cat.slug 1 perPage with _ | ws1
  · rcases hp : pexelsSearchPhotos env cat.search_query cat.slug 1 perPage with _ | ws2
    · exact ⟨[], by simp [fetchCategoryWallpapers, hu, hp], by simp⟩
    · have hres : fetchCategoryWallpapers env cat perPage db = saveNewWallpapers ws2 db := by
        simp [fetchCategoryWallpapers, hu, hp]
      obtain ⟨add, hsh, horigin⟩ := saveNew_extends ws2 db hdb
        (effectiveFetch_wf env cat perPage ws2 (by rw [effectiveFetch, hu, hp]))
      exact ⟨add, by rw [hres, hsh], fun a ha =>
        ⟨ws2, by rw [effectiveFetch, hu, hp], horigin a ha⟩⟩
  · have hres : fetchCategoryWallpapers env cat perPage db = saveNewWallpapers ws1 db := by
      simp [fetchCategoryWallpapers, hu]
    obtain ⟨add, hsh, horigin⟩ := saveNew_extends ws1 db hdb
      (effectiveFetch_wf env cat perPage ws1 (by rw [effectiveFetch, hu]))
    exact ⟨add, by rw [hres, hsh], fun a ha =>
      ⟨ws1, by rw [effectiveFetch, hu], horigin a ha⟩⟩

/-- C2 (amended): when an ingestion fetch returns a record whose
`(external_id, source)` pair already exists in a well-formed catalog, the
record is excluded from the write by the exists-check; the stored documents
— title, image URLs and `downloads` alike — are left entirely unchanged,
the category fetch only ever appending new documents after them. -/
theorem ingestion_skips_existing (env : Upstream) (cat : Category) (perPage : Nat)
    (db : Store) (hdb : wfStore db) :
    ∃ add, (fetchCategoryWallpapers env cat perPage db).1 = db ++ add := by
  obtain ⟨add, hsh, _⟩ := fetchCategory_extends env cat perPage db hdb
  exact ⟨add, hsh⟩

/-- Witness for `ingestion_skips_existing` at the counterexample input. -/
theorem ingestion_skips_existing_witness :
    ∃ add, (fetchCategoryWallpapers envNature catNature 20 [c1Old]).1 = [c1Old] ++ add :=
  ingestion_skips_existing envNature catNature 20 [c1Old]
    (by intro r hr; rw [List.mem_singleton] at hr; subst hr; decide)

/-- C5: when the primary provider fails, the orchestrator calls the
secondary with the same query at page 1; if the secondary answers with new
photos for a well-formed catalog, the category still yields that many new
records, and everything appended to the catalog carries the secondary's
source. -/
theorem provider_fallback (env : Upstream) (cat : Category) (perPage : Nat) (db : Store)
    (hdb : wfStore db)
    (hfail : env.unsplashSearch cat.search_query 1 perPage = none)
    (ps : List PexelsPhoto)
    (hok : env.pexelsSearch cat.search_query 1 perPage = some ps)
    (hne : ps ≠ [])
    (hnew : ∀ p ∈ ps, wallpaperExists (toString p.pid) "pexels" db = false) :
    (fetchCategoryWallpapers env cat perPage db).2 = some ps.length ∧ 0 < ps.length ∧
    ∃ add, add ≠ [] ∧ (fetchCategoryWallpapers env cat perPage db).1 = db ++ add ∧
      ∀ a ∈ add, a.source = "pexels" := by
  have hu : unsplashSearchPhotos env cat.search_query cat.slug 1 perPage = none := by
    simp [unsplashSearchPhotos, hfail]
  have hws : pexelsSearchPhotos env cat.search_query cat.slug 1 perPage =
      some (ps.map (fun p => pexelsNormalizePhoto p (some cat.slug))) := by
    simp [pexelsSearchPhotos, hok]
  have hres : fetchCategoryWallpapers env cat perPage db =
      saveNewWallpapers (ps.map (fun p => pexelsNormalizePhoto p (some cat.slug))) db := by
    simp [fetchCategoryWallpapers, hu, hws]
  have hwswf : ∀ w ∈ ps.map (fun p => pexelsNormalizePhoto p (some cat.slug)),
      wfRecord w = true := by
    intro w hw
    rcases List.mem_map.mp hw with ⟨p, _, rfl⟩
    exact wfRecord_pexelsNormalize p _
  have hfil : filterNew db (ps.map (fun p => pexelsNormalizePhoto p (some cat.slug))) =
      ps.map (fun p => pexelsNormalizePhoto p (some cat.slug)) := by
    rw [filterNew, List.filter_eq_self]
    intro w hw
    rcases List.mem_map.mp hw with ⟨p, hp, rfl⟩
    simp [pexelsNormalizePhoto, hnew p hp]
  have hlen : (filterNew db (ps.map (fun p => pexelsNormalizePhoto p (some cat.slug)))).length =
      ps.length := by rw [hfil, List.length_map]
  have hpos : 0 < ps.length := List.length_pos.mpr hne
  obtain ⟨hcnt, _, _, hpairs⟩ :=
    saveNew_wf (ps.map (fun p => pexelsNormalizePhoto p (some cat.slug))) db hdb hwswf
  obtain ⟨add, hsh, horigin⟩ := fetchCategory_extends env cat perPage db hdb
  refine ⟨by rw [hres, hcnt, hlen], hpos, add, ?_, hsh, ?_⟩
  · obtain ⟨p0, hp0⟩ := List.exists_mem_of_ne_nil ps hne
    have hin := hpairs (pexelsNormalizePhoto p0 (some cat.slug))
      (List.mem_map_of_mem _ hp0)
    rw [← hres, hsh, wallpaperExists_iff] at hin
    obtain ⟨r, hr, hre, hrs⟩ := hin
    rcases List.mem_append.mp hr with h1 | h1
    · exfalso
      have hex : wallpaperExists (toString p0.pid) "pexels" db = true :=
        (wallpaperExists_iff _ _ _).mpr ⟨r, h1, hre, hrs⟩
      rw [hnew p0 hp0] at hex
      exact Bool.false_ne_true hex
    · exact List.ne_nil_of_mem h1
  · intro a ha
    obtain ⟨ws0, hws0, w, hw, hsrc⟩ := horigin a ha
    rw [effectiveFetch, hu, hws] at hws0
    obtain rfl : ps.map (fun p => pexelsNormalizePhoto p (some cat.slug)) = ws0 := by
      injection hws0
    rcases List.mem_map.mp hw with ⟨p, _, rfl⟩
    exact hsrc

/-- Witness for `provider_fallback`: primary down, secondary answering the
query `"qc"` with one photo, over the empty catalog. -/
theorem provider_fallback_witness :
    (fetchCategoryWallpapers envSecondaryOnly catC 20 []).2 =
      some ([pPhotoBare].length) ∧ 0 < ([pPhotoBare] : List PexelsPhoto).length ∧
    ∃ add, add ≠ [] ∧ (fetchCategoryWallpapers envSecondaryOnly catC 20 []).1 = [] ++ add ∧
      ∀ a ∈ add, a.source = "pexels" :=
  provider_fallback envSecondaryOnly catC 20 []
    (fun r hr => absurd hr (List.not_mem_nil r))
    rfl [pPhotoBare] rfl (List.cons_ne_nil _ _)
    (by intro p hp; rfl)

/-- C6: a category whose providers both fail yields zero new records without
raising, and the cycle total over three categories with a failing middle one
is the sum of the first and third categories' new-record counts. -/
theorem category_failure_isolated (env : Upstream) (db : Store) (c1 c2 c3 : Category)
    (h1 : env.unsplashSearch c2.search_query 1 20 = none)
    (h2 : env.pexelsSearch c2.search_query 1 20 = none) :
    fetchCategoryWallpapers env c2 20 (fetchCategoryWallpapers env c1 20 db).1 =
      ((fetchCategoryWallpapers env c1 20 db).1, some 0) ∧
    (fetchAllCategoryWallpapers env db [c1, c2, c3]).2.2 =
      (fetchCategoryWallpapers env c1 20 db).2.getD 0 +
      (fetchCategoryWallpapers env c3 20 (fetchCategoryWallpapers env c1 20 db).1).2.getD 0 := by
  have hmid := fetchCategory_bothFail env c2 20 (fetchCategoryWallpapers env c1 20 db).1 h1 h2
  refine ⟨hmid, ?_⟩
  simp only [fetchAllCategoryWallpapers, getCategories, fetchLoop, hmid, Option.getD_some]
  omega

/-- Witness for `category_failure_isolated` in the concrete partial-failure
environment. -/
theorem category_failure_isolated_witness :
    fetchCategoryWallpapers envPartial catB 20 (fetchCategoryWallpapers envPartial catA 20 []).1 =
      ((fetchCategoryWallpapers envPartial catA 20 []).1, some 0) ∧
    (fetchAllCategoryWallpapers envPartial [] [catA, catB, catC]).2.2 =
      (fetchCategoryWallpapers envPartial catA 20 []).2.getD 0 +
      (fetchCategoryWallpapers envPartial catC 20
        (fetchCategoryWallpapers envPartial catA 20 []).1).2.getD 0 :=
  category_failure_isolated envPartial [] catA catB catC rfl rfl

/-- Over a well-formed store, the per-category loop keeps the store
well-formed, preserves every present pair, and ends with every effectively
fetched pair of every category present. -/
theorem fetchLoop_wf :
    ∀ (cats : List Category) (env : Upstream) (db : Store) (t : Nat), wfStore db →
      wfStore (fetchLoop env db t cats).1 ∧
      (∀ e s, wallpaperExists e s db = true →
        wallpaperExists e s (fetchLoop env db t cats).1 = true) ∧
      (∀ c ∈ cats, ∀ ws, effectiveFetch env c 20 = some ws →
        ∀ w ∈ ws, wallpaperExists w.external_id w.source (fetchLoop env db t cats).1 = true) := by
  intro cats
  induction cats with
  | nil =>
    intro env db t hdb
    exact ⟨hdb, fun e s he => he, by simp⟩
  | cons c cs ih =>
    intro env db t hdb
    obtain ⟨hwf1, hpres1, hpairs1⟩ := fetchCategory_wf env c 20 db hdb
    obtain ⟨ihwf, ihpres, ihpairs⟩ :=
      ih env (fetchCategoryWallpapers env c 20 db).1
        (t + ((fetchCategoryWallpapers env c 20 db).2.getD 0)) hwf1
    refine ⟨ihwf, ?_, ?_⟩
    · intro e s he
      exact ihpres e s (hpres1 e s he)
    · intro c1 hc1 ws hws w hw
      rcases List.mem_cons.mp hc1 with rfl | h1
      · exact ihpres _ _ (hpairs1 ws hws w hw)
      · exact ihpairs c1 h1 ws hws w hw

/-- When every effectively fetched pair of every category is already
present, the per-category loop is a complete no-op. -/
theorem fetchLoop_noop :
    ∀ (cats : List Category) (env : Upstream) (db : Store) (t : Nat),
      (∀ c ∈ cats, ∀ ws, effectiveFetch env c 20 = some ws →
        ∀ w ∈ ws, wallpaperExists w.external_id w.source db = true) →
      fetchLoop env db t cats = (db, t) := by
  intro cats
  induction cats with
  | nil => intro env db t _; rfl
  | cons c cs ih =>
    intro env db t h
    have hc := fetchCategory_noop env c 20 db (h c (List.mem_cons_self _ _))
    simp only [fetchLoop, hc, Option.getD_some, Nat.add_zero]
    exact ih env db t (fun c1 hc1 => h c1 (List.mem_cons_of_mem _ hc1))

theorem setCatCount_append_no_match (i : String) (n : Nat) :
    ∀ (l1 l2 : CatStore), (∀ c ∈ l1, (c.cid == i) = false) →
      setCatCount i n (l1 ++ l2) = l1 ++ setCatCount i n l2 := by
  intro l1 l2
  induction l1 with
  | nil => intro _; rfl
  | cons c cs ih =>
    intro h
    simp only [List.cons_append, setCatCount, List.append_eq]
    rw [if_neg (by simp [h c (List.mem_cons_self c cs)]), ih
      (fun c1 hc1 => h c1 (List.mem_cons_of_mem c hc1))]

theorem updCount_cid (db : Store) (c : Category) : (updCount db c).cid = c.cid := rfl

theorem updateCounts_go (db : Store) :
    ∀ (todo pre : List Category),
      (((pre ++ todo).map Category.cid).Nodup) →
      todo.foldl (fun acc c => setCatCount c.cid (countByCategory db c.slug) acc)
        (pre.map (updCount db) ++ todo) = (pre ++ todo).map (updCount db) := by
  intro todo
  induction todo with
  | nil =>
    intro pre _
    simp
  | cons c rest ih =>
    intro pre hnd
    have hcpre : ∀ x ∈ pre.map (updCount db), (x.cid == c.cid) = false := by
      intro x hx
      rcases List.mem_map.mp hx with ⟨c0, hc0, rfl⟩
      rw [updCount_cid, Bool.eq_false_iff]
      intro hbeq
      have heq : c0.cid = c.cid := beq_iff_eq.mp hbeq
      have : c.cid ∈ (pre.map Category.cid) := heq ▸ List.mem_map_of_mem Category.cid hc0
      have hnd2 := hnd
      rw [List.map_append, List.nodup_append] at hnd2
      exact hnd2.2.2 this (by
        rw [List.map_cons]
        exact List.mem_cons_self _ _)
    have hstep : setCatCount c.cid (countByCategory db c.slug) (pre.map (updCount db) ++ c :: rest) =
        (pre ++ [c]).map (updCount db) ++ rest := by
      rw [setCatCount_append_no_match c.cid (countByCategory db c.slug) _ _ hcpre]
      simp only [setCatCount, beq_self_eq_true, if_pos]
      rw [List.map_append]
      simp [updCount]
    simp only [List.foldl_cons, hstep]
    have := ih (pre ++ [c]) (by simpa using hnd)
    rw [List.append_assoc] at this
    simpa using this

/-- The reconciliation pass rewrites every category document to its
recomputed count, provided the collection keys are unique (MongoDB's `_id`
invariant). -/
theorem updateCategoryCounts_eq (db : Store) (cs : CatStore)
    (h : (cs.map Category.cid).Nodup) :
    updateCategoryCounts db cs = cs.map (updCount db) := by
  have := updateCounts_go db cs [] (by simpa using h)
  simpa [updateCategoryCounts] using this

/-- C7: after `updateCategoryCounts`, every category document's
`wallpaper_count` equals exactly the number of wallpaper documents whose
`category` is its slug. -/
theorem reconcile_counts_correct (db : Store) (cs : CatStore)
    (h : (cs.map Category.cid).Nodup) :
    ∀ c ∈ updateCategoryCounts db cs, c.wallpaper_count = countByCategory db c.slug := by
  rw [updateCategoryCounts_eq db cs h]
  intro c hc
  rcases List.mem_map.mp hc with ⟨c0, _, rfl⟩
  rfl

/-- Witness for `reconcile_counts_correct` on a one-category,
one-wallpaper catalog. -/
theorem reconcile_counts_correct_witness :
    (updCount [c1Old] catNature).wallpaper_count =
      countByCategory [c1Old] (updCount [c1Old] catNature).slug :=
  reconcile_counts_correct [c1Old] [catNature] (by decide)
    (updCount [c1Old] catNature) (by decide)

/-- C3: running one ingestion cycle twice against the same upstream
responses yields the same catalog state after the second run as after the
first — the second run inserts nothing, leaves the wallpaper store
unchanged, and reconciles the category counts to the same values.  The
hypotheses are the store invariants every real catalog satisfies:
well-formed wallpaper documents and unique category keys. -/
theorem ingestion_cycle_idempotent (env : Upstream) (db : Store) (cats : CatStore)
    (hdb : wfStore db) (hcid : (cats.map Category.cid).Nodup) :
    (fetchAllCategoryWallpapers env (fetchAllCategoryWallpapers env db cats).1
        (fetchAllCategoryWallpapers env db cats).2.1).1 =
      (fetchAllCategoryWallpapers env db cats).1 ∧
    (fetchAllCategoryWallpapers env (fetchAllCategoryWallpapers env db cats).1
        (fetchAllCategoryWallpapers env db cats).2.1).2.1 =
      (fetchAllCategoryWallpapers env db cats).2.1 := by
  obtain ⟨hwf1, _, hpairs1⟩ := fetchLoop_wf cats env db 0 hdb
  have hloop2 : fetchLoop env (fetchLoop env db 0 cats).1 0
      (updateCategoryCounts (fetchLoop env db 0 cats).1 cats) =
      ((fetchLoop env db 0 cats).1, 0) := by
    refine fetchLoop_noop _ env _ 0 ?_
    intro c1 hc1 ws hws w hw
    rw [updateCategoryCounts_eq (fetchLoop env db 0 cats).1 cats hcid] at hc1
    rcases List.mem_map.mp hc1 with ⟨c0, hc0, rfl⟩
    exact hpairs1 c0 hc0 ws hws w hw
  have hnodup1 : ((updateCategoryCounts (fetchLoop env db 0 cats).1 cats).map
      Category.cid).Nodup := by
    rw [updateCategoryCounts_eq _ cats hcid, List.map_map]
    exact hcid
  constructor
  · simp only [fetchAllCategoryWallpapers, getCategories]
    rw [hloop2]
  · simp only [fetchAllCategoryWallpapers, getCategories]
    rw [hloop2]
    rw [updateCategoryCounts_eq _ _ hnodup1,
      updateCategoryCounts_eq (fetchLoop env db 0 cats).1 cats hcid, List.map_map]
    rfl

/-- Witness for `ingestion_cycle_idempotent` on the empty catalog with one
category and a one-photo upstream. -/
theorem ingestion_cycle_idempotent_witness :
    (fetchAllCategoryWallpapers envNature
        (fetchAllCategoryWallpapers envNature [] [catNature]).1
        (fetchAllCategoryWallpapers envNature [] [catNature]).2.1).1 =
      (fetchAllCategoryWallpapers envNature [] [catNature]).1 ∧
    (fetchAllCategoryWallpapers envNature
        (fetchAllCategoryWallpapers envNature [] [catNature]).1
        (fetchAllCategoryWallpapers envNature [] [catNature]).2.1).2.1 =
      (fetchAllCategoryWallpapers envNature [] [catNature]).2.1 :=
  ingestion_cycle_idempotent envNature [] [catNature]
    (fun r hr => absurd hr (List.not_mem_nil r)) (by decide)

theorem mk_data (s : String) : String.mk s.data = s := rfl

theorem plainChar_spec (c : Char) (h : plainChar c = true) :
    (c == '"') = false ∧ (c == '\\') = false := by
  simp only [plainChar, Bool.and_eq_true, Bool.not_eq_true'] at h
  exact ⟨h.1.1, h.1.2⟩

theorem flatten_escape_plain :
    ∀ l : List Char, (∀ c ∈ l, plainChar c = true) → (l.map escapeChar).flatten = l := by
  intro l
  induction l with
  | nil => intro _; rfl
  | cons c cs ih =>
    intro h
    obtain ⟨h1, h2⟩ := plainChar_spec c (h c (List.mem_cons_self _ _))
    simp only [List.map_cons, List.flatten_cons, escapeChar, escapesToSelf, h1, h2]
    rw [ih (fun c1 hc1 => h c1 (List.mem_cons_of_mem _ hc1))]
    rfl

theorem parseStringBody_plain :
    ∀ (l rest : List Char), (∀ c ∈ l, plainChar c = true) →
      parseStringBody (l ++ '"' :: rest) = some (l, rest) := by
  intro l
  induction l with
  | nil =>
    intro rest _
    rw [List.nil_append, parseStringBody.eq_def]
    simp
  | cons c cs ih =>
    intro rest h
    obtain ⟨h1, h2⟩ := plainChar_spec c (h c (List.mem_cons_self _ _))
    simp only [List.cons_append]
    rw [parseStringBody.eq_def]
    simp [h1, h2, ih rest (fun c1 hc1 => h c1 (List.mem_cons_of_mem _ hc1))]

theorem encodeJsonString_data (t : String) :
    (encodeJsonString t).data = '"' :: ((t.data.map escapeChar).flatten ++ ['"']) := by
  simp [encodeJsonString, String.data_append]

theorem jsonStringifyItems_data :
    ∀ (ts : List String) (t : String), (jsonStringifyItems (t :: ts)).data ++ [']'] =
      '"' :: ((t.data.map escapeChar).flatten ++ ('"' :: encTail ts)) := by
  intro ts
  induction ts with
  | nil =>
    intro t
    simp [jsonStringifyItems, encodeJsonString_data, encTail]
  | cons u ts ih =>
    intro t
    simp only [jsonStringifyItems, String.data_append, encodeJsonString_data, encTail]
    rw [List.append_assoc, ih u]
    simp

theorem encTail_length : ∀ ts : List String, ts.length < (encTail ts).length := by
  intro ts
  induction ts with
  | nil => simp [encTail]
  | cons t ts ih =>
    simp only [encTail, List.length_cons, List.length_append]
    omega

theorem parseArrayTail_encTail :
    ∀ (ts : List String), (∀ t ∈ ts, ∀ c ∈ t.data, plainChar c = true) →
      ∀ fuel, ts.length < fuel → parseArrayTail fuel (encTail ts) = some (ts, []) := by
  intro ts
  induction ts with
  | nil =>
    intro _ fuel _
    rw [encTail, parseArrayTail.eq_def]
    rcases fuel with _ | f <;> simp
  | cons t ts ih =>
    intro h fuel hfuel
    rcases fuel with _ | f
    · omega
    · rw [encTail, parseArrayTail.eq_def]
      have hplain := h t (List.mem_cons_self _ _)
      rw [flatten_escape_plain t.data hplain]
      simp only [parseStringBody_plain t.data (encTail ts) hplain]
      rw [ih (fun t1 ht1 => h t1 (List.mem_cons_of_mem _ ht1)) f (by simpa using hfuel)]

/-- Round trip of the JSON model on an array of plain strings: parsing the
encoding recovers exactly the array. -/
theorem parseJson_stringify (ts : List String)
    (h : ∀ t ∈ ts, ∀ c ∈ t.data, plainChar c = true) :
    parseJson (jsonStringifyStrings ts) = some (Jval.jarr (ts.map Jval.jstr)) := by
  rcases ts with _ | ⟨t, ts⟩
  · rfl
  · have hdata : (jsonStringifyStrings (t :: ts)).data =
        '[' :: '"' :: (t.data ++ ('"' :: encTail ts)) := by
      simp only [jsonStringifyStrings, String.data_append]
      rw [List.append_assoc, jsonStringifyItems_data ts t,
        flatten_escape_plain t.data (h t (List.mem_cons_self _ _))]
      rfl
    rw [parseJson.eq_def, hdata]
    simp only [parseStringBody_plain t.data (encTail ts) (h t (List.mem_cons_self _ _))]
    rw [parseArrayTail_encTail ts (fun t1 ht1 => h t1 (List.mem_cons_of_mem _ ht1))
      (encTail ts).length (encTail_length ts)]
    simp [mk_data]

/-- C10: the provider normalizers emit `tags` as a JSON-encoded string; the
insert path parses that string back into an array before writing, replacing
a malformed string by the empty array instead of failing; and every record
written through `insertWallpapers` or `insertWallpaper` over a catalog of
string-array tags is stored with string-array tags. -/
theorem tags_stored_as_string_array :
    (∀ (p : UnsplashPhoto) (cat : Option String), (unsplashNormalizePhoto p cat).tags =
      Jval.jstr (jsonStringifyStrings (p.tag_titles.getD []))) ∧
    (∀ (p : PexelsPhoto) (cat : Option String), (pexelsNormalizePhoto p cat).tags =
      Jval.jstr (jsonStringifyStrings [])) ∧
    (∀ (w : Wallpaper) (ts : List String), w.tags = Jval.jstr (jsonStringifyStrings ts) →
      (∀ t ∈ ts, ∀ c ∈ t.data, plainChar c = true) →
      (prepDoc w).tags = Jval.jarr (ts.map Jval.jstr)) ∧
    (∀ (w : Wallpaper) (s : String), w.tags = Jval.jstr s → parseJson s = none →
      (prepDoc w).tags = Jval.jarr []) ∧
    (∀ (ws : List Wallpaper) (db : Store), (∀ r ∈ db, isStringArray r.tags) →
      (∀ w ∈ ws, isStringArray (prepDoc w).tags) →
      ∀ r ∈ (insertWallpapers ws db).1, isStringArray r.tags) ∧
    (∀ (w : Wallpaper) (db db2 : Store), insertWallpaper w db = some db2 →
      (∀ r ∈ db, isStringArray r.tags) → isStringArray (prepDoc w).tags →
      ∀ r ∈ db2, isStringArray r.tags) := by
  refine ⟨fun p cat => rfl, fun p cat => rfl, ?_, ?_, ?_, ?_⟩
  · intro w ts hw hplain
    simp only [prepDoc, hw, parseJson_stringify ts hplain]
  · intro w s hw hpar
    simp only [prepDoc, hw, hpar]
  · intro ws db hdb hws r hr
    rcases mem_bulkUpsert r (ws.map prepDoc) db hr with h1 | ⟨w1, hw1, h1⟩
    · exact hdb r h1
    · rcases List.mem_map.mp hw1 with ⟨w0, hw0, rfl⟩
      rcases h1 with rfl | ⟨r1, rfl⟩
      · exact hws w0 hw0
      · exact hws w0 hw0
  · intro w db db2 hup hdb hw r hr
    rcases mem_upsertOne db (prepDoc w) db2 hup r hr with h1 | h1 | ⟨r1, rfl⟩
    · exact hdb r h1
    · rw [h1]
      exact hw
    · exact hw

/-- Witness for `tags_stored_as_string_array` at concrete documents: the
normalized photo's encoded tags parse back into the array, and the malformed
tags of `badTagsDoc` collapse to the empty array. -/
theorem tags_stored_as_string_array_witness :
    (unsplashNormalizePhoto p42New (some "nature")).tags =
      Jval.jstr (jsonStringifyStrings (p42New.tag_titles.getD [])) ∧
    (prepDoc (unsplashNormalizePhoto p42New (some "nature"))).tags =
      Jval.jarr (["x"].map Jval.jstr) ∧
    (prepDoc badTagsDoc).tags = Jval.jarr [] :=
  ⟨tags_stored_as_string_array.1 p42New (some "nature"),
   tags_stored_as_string_array.2.2.1 (unsplashNormalizePhoto p42New (some "nature"))
     ["x"] rfl (by decide),
   tags_stored_as_string_array.2.2.2.1 badTagsDoc "not json" rfl
     (by simp [parseJson])⟩

end InkWall
